import Mathlib

/-!
# ConANN calibration and adaptive search: a shallow embedding

Source files embedded here:

* `src/experiments/search.cpp`    : `ConannCalibParams`, `load_conann_params`,
  `search_hnsw_conann_batch`, `calculate_fnr`, the effort average of `main`
* `src/experiments/calibrate.cpp` : `save_conann_params`, `calculate_fnr`, the matrix builder,
  the regularizer and the CRC sweep of `main`

Conventions of the embedding.

* A C++ `float` is a value of `Flt`: an exact rational, or one of the IEEE-754 special values
  `+inf`, `-inf`, `NaN`.  Arithmetic on finite values is exact (rounding and overflow to
  infinity are not modelled, and there is a single zero); the special values follow the
  IEEE-754 rules, so `0/0 = NaN`, `x/0 = ±inf` and every comparison with `NaN` is false.
* `std::max(a, b)` is `(a < b) ? b : a` and `std::min(a, b)` is `(b < a) ? b : a`, as in the
  C++ standard library; this fixes what they return on `NaN`.
* The float literals `0.01f`, `0.005f`, `1.5f` are the rationals 1/100, 1/200, 3/2, so the
  sweep visits exactly the candidates `i / 200` for `i = 0, .., 300`.
* `int` and `size_t` values are `Int` and `Nat`; the schedule positions and the query counts of
  the program are far from the machine limits and integer arithmetic is assumed not to
  overflow.  `k` is a `Nat`; the program needs `k >= 1` (it reads entry `k - 1` of a row).
* The ANN index is an external collaborator: a deterministic function from a query vector, `k`
  and `efSearch` to the `k` returned labels and distances.
* Raw output buffers (`final_labels`, `final_distances`) are total maps from the row index to a
  row of `k` entries.
-/

namespace Conann

/-! ## Floating point values -/

/-- A `float`: a finite (exact) rational or an IEEE-754 special value. -/
inductive Flt where
  | fin (q : ℚ)
  | pinf
  | ninf
  | nan
deriving DecidableEq

namespace Flt

/-- Unary minus. -/
def neg : Flt → Flt
  | fin a => fin (-a)
  | pinf => ninf
  | ninf => pinf
  | nan => nan

/-- Addition: `inf + (-inf)` is `NaN`. -/
def add : Flt → Flt → Flt
  | fin a, fin b => fin (a + b)
  | nan, _ => nan
  | _, nan => nan
  | pinf, ninf => nan
  | ninf, pinf => nan
  | pinf, _ => pinf
  | _, pinf => pinf
  | ninf, _ => ninf
  | _, ninf => ninf

/-- Subtraction, `a + (-b)`. -/
def sub (a b : Flt) : Flt := add a (neg b)

/-- Multiplication: `inf * 0` is `NaN`. -/
def mul : Flt → Flt → Flt
  | fin a, fin b => fin (a * b)
  | nan, _ => nan
  | _, nan => nan
  | pinf, fin b => if b = 0 then nan else if 0 < b then pinf else ninf
  | ninf, fin b => if b = 0 then nan else if 0 < b then ninf else pinf
  | fin a, pinf => if a = 0 then nan else if 0 < a then pinf else ninf
  | fin a, ninf => if a = 0 then nan else if 0 < a then ninf else pinf
  | pinf, pinf => pinf
  | pinf, ninf => ninf
  | ninf, pinf => ninf
  | ninf, ninf => pinf

/-- Division: `0/0` and `inf/inf` are `NaN`, `x/0` is an infinity with the sign of `x`. -/
def div : Flt → Flt → Flt
  | fin a, fin b =>
      if b = 0 then (if a = 0 then nan else if 0 < a then pinf else ninf) else fin (a / b)
  | nan, _ => nan
  | _, nan => nan
  | fin _, pinf => fin 0
  | fin _, ninf => fin 0
  | pinf, fin b => if 0 ≤ b then pinf else ninf
  | ninf, fin b => if 0 ≤ b then ninf else pinf
  | pinf, pinf => nan
  | pinf, ninf => nan
  | ninf, pinf => nan
  | ninf, ninf => nan

/-- The comparison `a <= b`; false as soon as one side is `NaN`. -/
def le : Flt → Flt → Bool
  | fin a, fin b => decide (a ≤ b)
  | nan, _ => false
  | _, nan => false
  | ninf, _ => true
  | _, pinf => true
  | pinf, _ => false
  | _, ninf => false

/-- The comparison `a < b`; false as soon as one side is `NaN`. -/
def lt : Flt → Flt → Bool
  | fin a, fin b => decide (a < b)
  | nan, _ => false
  | _, nan => false
  | pinf, _ => false
  | _, ninf => false
  | ninf, _ => true
  | _, pinf => true

/-- Conversion of an `int` to `float`. -/
def ofInt (z : Int) : Flt := fin (z : ℚ)

/-- Conversion of a `size_t` to `float`. -/
def ofNat (n : Nat) : Flt := fin (n : ℚ)

/-- `std::max(a, b)`, which is `(a < b) ? b : a`. -/
def std_max (a b : Flt) : Flt := if lt a b then b else a

/-- `std::min(a, b)`, which is `(b < a) ? b : a`. -/
def std_min (a b : Flt) : Flt := if lt b a then b else a

/-- `std::numeric_limits<float>::max()`, which is `(2^24 - 1) * 2^104`. -/
def FLT_MAX : Flt := fin ((2 ^ 24 - 1) * 2 ^ 104)

end Flt

/-! ## The calibration artifact and the index -/

/-- `struct ConannCalibParams` of `search.cpp`. -/
structure ConannCalibParams where
  lambda_hat : Flt
  gamma : Flt
  c_reg : Int
  min_dist : Flt
  max_dist : Flt
  ef_schedule : List Int

/-- One row of a batched index search: the `k` labels and the `k` distances of a query. -/
structure Neighbors where
  labels : List Int
  distances : List Flt

/-- The index search `index.search(.., k, .., efSearch)` restricted to one query of the batch:
query vector, `k` and `efSearch` give the row of results. -/
abbrev IndexHNSWFlat := List Flt → Nat → Int → Neighbors

/-! ## `search_hnsw_conann_batch` (search.cpp, lines 83-164) -/

/-- The variables of `search_hnsw_conann_batch` that live across rounds.  The last two fields
are ghost instrumentation that the C++ does not have: `writes` logs, in program order, the pair
(round, query) of every scatter into `final_labels` / `final_distances` / `ef_used`, and
`history` logs the active list at the entry of every executed round. -/
structure SearchState where
  active_indices : List Nat
  next_active_indices : List Nat
  final_labels : Nat → List Int
  final_distances : Nat → List Flt
  ef_used : List Int
  writes : List (Nat × Nat)
  history : List (List Nat)

/-- The k-th neighbour distance `batch_distances[i * k + (k - 1)]` of a result row. -/
def dist_k_of (row : Neighbors) (k : Nat) : Flt :=
  row.distances.getD (k - 1) (Flt.fin 0)

/-- Lines 142-147: the regularized score `pi_hat` of a k-th neighbour distance at schedule
position `p`. -/
def pi_hat (params : ConannCalibParams) (p : Nat) (dist_k : Flt) : Flt :=
  let norm_dist := Flt.div (Flt.sub dist_k params.min_dist)
    (Flt.sub params.max_dist params.min_dist)
  let norm_dist := Flt.std_max (Flt.fin 0) (Flt.std_min (Flt.fin 1) norm_dist)
  let base_score := norm_dist
  let penalty := Flt.mul params.gamma (Flt.ofInt (max 0 ((p : Int) - params.c_reg)))
  Flt.add base_score penalty

/-- Lines 138-159: the stopping-criteria loop of round `p` over the active list.  For each
active query the batch row is the index result for that query at `current_ef` (steps 3 and 4,
gather and batched search); the query is scattered to the output when its score passes or when
`p` is the last schedule position, and is pushed on `next_active_indices` otherwise. -/
def stopping_pass (index : IndexHNSWFlat) (queries : List (List Flt)) (k : Nat)
    (params : ConannCalibParams) (p : Nat) (current_ef : Int) :
    List Nat → SearchState → SearchState
  | [], s => s
  | orig_idx :: rest, s =>
    let row := index (queries.getD orig_idx []) k current_ef
    let dist_k := dist_k_of row k
    if Flt.le (pi_hat params p dist_k) params.lambda_hat = true
        ∨ p = params.ef_schedule.length - 1 then
      stopping_pass index queries k params p current_ef rest
        { s with
          final_labels := Function.update s.final_labels orig_idx row.labels
          final_distances := Function.update s.final_distances orig_idx row.distances
          ef_used := s.ef_used.set orig_idx current_ef
          writes := s.writes ++ [(p, orig_idx)] }
    else
      stopping_pass index queries k params p current_ef rest
        { s with next_active_indices := s.next_active_indices ++ [orig_idx] }

/-- Lines 110-163: the loop over the schedule, at position `p` with the schedule values from
`p` on still to visit.  The loop stops early when the active list is empty. -/
def search_loop (index : IndexHNSWFlat) (queries : List (List Flt)) (k : Nat)
    (params : ConannCalibParams) : Nat → List Int → SearchState → SearchState
  | _, [], s => s
  | p, current_ef :: rest, s =>
    if s.active_indices.length = 0 then s
    else
      let s1 := stopping_pass index queries k params p current_ef s.active_indices
        { s with next_active_indices := [], history := s.history ++ [s.active_indices] }
      search_loop index queries k params (p + 1) rest
        { s1 with active_indices := s1.next_active_indices }

/-- `ef_used.resize(nq)`: keeps the first `nq` entries and pads with zeros. -/
def resize (v : List Int) (n : Nat) : List Int :=
  v.take n ++ List.replicate (n - v.length) 0

/-- `search_hnsw_conann_batch`: the state after the schedule loop.  The caller's output
buffers and the vector `ef_used` come in with their previous contents. -/
def search_hnsw_conann_batch (index : IndexHNSWFlat) (nq : Nat) (queries : List (List Flt))
    (k : Nat) (params : ConannCalibParams) (final_labels : Nat → List Int)
    (final_distances : Nat → List Flt) (ef_used : List Int) : SearchState :=
  search_loop index queries k params 0 params.ef_schedule
    { active_indices := List.range nq
      next_active_indices := []
      final_labels := final_labels
      final_distances := final_distances
      ef_used := resize ef_used nq
      writes := []
      history := [] }

/-! ## `calculate_fnr` (calibrate.cpp lines 67-77, search.cpp lines 167-177) -/

/-- `static_cast<int>` of a 64-bit label: reduction to the 32-bit two's complement range. -/
def to_int32 (x : Int) : Int := (x + 2 ^ 31) % 2 ^ 32 - 2 ^ 31

/-- The counting loop of `calculate_fnr`: the number of positions `j` among those listed
whose prediction, cast to `int`, is in the ground-truth set.  A vector of `k` predictions is
read at `j`; the default is never used when `j < k`. -/
def intersection_size (preds : List Int) (gt_set : List Int) : List Nat → Int
  | [] => 0
  | j :: js =>
    if to_int32 (preds.getD j 0) ∈ gt_set then intersection_size preds gt_set js + 1
    else intersection_size preds gt_set js

/-- `calculate_fnr(preds, gt_row, k)`: `gt_row` is the ground truth from the row pointer on,
of which the first `k` entries form the set. -/
def calculate_fnr (preds : List Int) (gt_row : List Int) (k : Nat) : Flt :=
  let gt_set := gt_row.take k
  Flt.sub (Flt.fin 1)
    (Flt.div (Flt.ofInt (intersection_size preds gt_set (List.range k))) (Flt.ofNat k))

/-! ## Calibration: `main` of calibrate.cpp -/

/-- The data steps 3 to 5 of `main` work on, apart from the target `alpha`: the command line
value `k`, the built index, the calibration queries (`nq_calib` of them) and the flat
ground-truth array with its row width `d_gt`. -/
structure CalibInput where
  k : Nat
  index : IndexHNSWFlat
  calib_queries : List (List Flt)
  calib_gt : List Int
  d_gt : Nat

namespace CalibInput

/-- The number of calibration queries `nq_calib`. -/
def nq_calib (inp : CalibInput) : Nat := inp.calib_queries.length

end CalibInput

/-- Lines 120-122: `for (int ef = 1; ef <= 1024; ef += 20)`, with a bound on the number of
iterations. -/
def ef_values_from : Nat → Int → List Int
  | 0, _ => []
  | fuel + 1, ef => if ef ≤ 1024 then ef :: ef_values_from fuel (ef + 20) else []

/-- The effort schedule `efSearch_values` of calibration. -/
def efSearch_values : List Int := ef_values_from 1024 1

/-- The number of schedule positions `num_ef`. -/
def num_ef : Nat := efSearch_values.length

/-- The result row of calibration query `row` in the batched search at `efSearch = ef`
(line 142). -/
def calib_row (inp : CalibInput) (row : Nat) (ef : Int) : Neighbors :=
  inp.index (inp.calib_queries.getD row []) inp.k ef

/-- Lines 145-146: the raw non-conformity score, the distance of the k-th neighbour. -/
def raw_score (inp : CalibInput) (row : Nat) (ef : Int) : Flt :=
  dist_k_of (calib_row inp row ef) inp.k

/-- Lines 151-153: `all_preds_list[row][col]`, the `k` labels copied out of the batch. -/
def all_preds_list (inp : CalibInput) (row col : Nat) : List Int :=
  (List.range inp.k).map
    (fun j => (calib_row inp row (efSearch_values.getD col 0)).labels.getD j 0)

/-- Lines 148-149: one update of the running pair (`global_min_dist`, `global_max_dist`). -/
def track_bounds (acc : Flt × Flt) (dist_k : Flt) : Flt × Flt :=
  (if Flt.lt dist_k acc.1 then dist_k else acc.1, if Flt.lt acc.2 dist_k then dist_k else acc.2)

/-- Lines 131-155: the pair (`global_min_dist`, `global_max_dist`) after the matrix is built,
columns in the outer loop and rows in the inner one. -/
def global_bounds (inp : CalibInput) : Flt × Flt :=
  efSearch_values.foldl
    (fun acc ef =>
      (List.range inp.nq_calib).foldl (fun acc row => track_bounds acc (raw_score inp row ef)) acc)
    (Flt.FLT_MAX, Flt.fin 0)

/-- The value of `global_min_dist` after the matrix is built. -/
def global_min_dist (inp : CalibInput) : Flt := (global_bounds inp).1

/-- The value of `global_max_dist` after the matrix is built. -/
def global_max_dist (inp : CalibInput) : Flt := (global_bounds inp).2

/-- Lines 158-163: the normalized entry `nonconf_matrix[row][col]`. -/
def nonconf_matrix (inp : CalibInput) (row col : Nat) : Flt :=
  Flt.div (Flt.sub (raw_score inp row (efSearch_values.getD col 0)) (global_min_dist inp))
    (Flt.sub (global_max_dist inp) (global_min_dist inp))

/-- Line 168: `gamma = 0.01f`. -/
def calib_gamma : Flt := Flt.fin (1 / 100)

/-- Line 169: `c_reg = 2`. -/
def calib_c_reg : Int := 2

/-- Lines 173-181: the regularized entry `reg_nonconf_matrix[row][col]`. -/
def reg_nonconf_matrix (inp : CalibInput) (row col : Nat) : Flt :=
  let base_score := nonconf_matrix inp row col
  let penalty := Flt.mul calib_gamma (Flt.ofInt (max 0 ((col : Int) - calib_c_reg)))
  Flt.add base_score penalty

/-- Lines 199-206: the column loop over the columns listed, with the default
`selected_col = num_ef - 1` when no column passes. -/
def select_col (inp : CalibInput) (row : Nat) (lambda_cand : Flt) : List Nat → Nat
  | [] => num_ef - 1
  | col :: cols =>
    if Flt.le (reg_nonconf_matrix inp row col) lambda_cand = true then col
    else select_col inp row lambda_cand cols

/-- The column `selected_col` of a row at a candidate. -/
def selected_col (inp : CalibInput) (row : Nat) (lambda_cand : Flt) : Nat :=
  select_col inp row lambda_cand (List.range num_ef)

/-- Line 208: `gt_row = &calib_gt[row * d_gt]`. -/
def gt_row (inp : CalibInput) (row : Nat) : List Int := inp.calib_gt.drop (row * inp.d_gt)

/-- Lines 208-211: the FNR of a row at its selected column. -/
def row_fnr (inp : CalibInput) (lambda_cand : Flt) (row : Nat) : Flt :=
  calculate_fnr (all_preds_list inp row (selected_col inp row lambda_cand)) (gt_row inp row) inp.k

/-- Lines 195-213: `empirical_risk_sum` after the row loop. -/
def empirical_risk_sum (inp : CalibInput) (lambda_cand : Flt) : Flt :=
  (List.range inp.nq_calib).foldl (fun sum row => Flt.add sum (row_fnr inp lambda_cand row))
    (Flt.fin 0)

/-- Line 186: `B = 1.0f`. -/
def B : Flt := Flt.fin 1

/-- Line 216: the corrected risk `expected_risk` of a candidate. -/
def expected_risk (inp : CalibInput) (lambda_cand : Flt) : Flt :=
  Flt.div
    (Flt.add
      (Flt.mul (Flt.ofNat inp.nq_calib)
        (Flt.div (empirical_risk_sum inp lambda_cand) (Flt.ofNat inp.nq_calib)))
      B)
    (Flt.ofNat (inp.nq_calib + 1))

/-- The variables the sweep carries from candidate to candidate: `best_lambda` and the rows
written to `risk_vs_lambda.csv`. -/
structure SweepState where
  best_lambda : Flt
  csv : List (Flt × Flt)

/-- Lines 195-224: the body of the sweep at one candidate. -/
def sweep_body (inp : CalibInput) (target_alpha : Flt) (lambda_cand : Flt)
    (st : SweepState) : SweepState :=
  let risk := expected_risk inp lambda_cand
  { best_lambda := if Flt.le risk target_alpha = true then lambda_cand else st.best_lambda
    csv := st.csv ++ [(lambda_cand, risk)] }

/-- Line 194: `for (lambda_cand = 0.0f; lambda_cand <= 1.5f; lambda_cand += 0.005f)`, with a
bound on the number of iterations. -/
def crc_sweep (inp : CalibInput) (target_alpha : Flt) :
    Nat → Flt → SweepState → SweepState
  | 0, _, st => st
  | fuel + 1, lambda_cand, st =>
    if Flt.le lambda_cand (Flt.fin (3 / 2)) = true then
      crc_sweep inp target_alpha fuel (Flt.add lambda_cand (Flt.fin (1 / 200)))
        (sweep_body inp target_alpha lambda_cand st)
    else st

/-- The iteration bound given to the sweep; 301 iterations are enough
(`crc_sweep_eq_foldl`). -/
def sweep_fuel : Nat := 512

/-- What calibration leaves behind: the artifact handed to `save_conann_params` and the rows
of the csv file. -/
structure CalibOutput where
  artifact : ConannCalibParams
  csv : List (Flt × Flt)

/-- Steps 3 to 5 of `main` (lines 118-230): matrix, regularization, sweep, and the artifact
that is saved. -/
def calibrate (inp : CalibInput) (target_alpha : Flt) : CalibOutput :=
  let st := crc_sweep inp target_alpha sweep_fuel (Flt.fin 0)
    { best_lambda := Flt.fin (-1), csv := [] }
  { artifact :=
      { lambda_hat := st.best_lambda
        gamma := calib_gamma
        c_reg := calib_c_reg
        min_dist := global_min_dist inp
        max_dist := global_max_dist inp
        ef_schedule := efSearch_values }
    csv := st.csv }

/-- What `vecs_read` delivered for the three files; `none` is the null pointer of a file
that could not be opened.  The ground truth comes with its row width `d_gt`. -/
structure CalibFiles where
  xb : Option (List (List Flt))
  calib_queries : Option (List (List Flt))
  calib_gt : Option (List Int × Nat)

/-- `main` of calibrate.cpp: the exit code of an early `return`, or the output of a run that
reaches `save_conann_params`.  `args` is `none` when fewer than two arguments are given;
`build` is the index construction `index.add(nb, xb)`. -/
def calibrate_main (build : List (List Flt) → IndexHNSWFlat) (args : Option (Nat × Flt))
    (files : CalibFiles) : Except Int CalibOutput :=
  match args with
  | none => .error 1
  | some (k, target_alpha) =>
    match files.xb, files.calib_queries, files.calib_gt with
    | some xb, some calib_queries, some (calib_gt, d_gt) =>
      .ok (calibrate
        { k := k
          index := build xb
          calib_queries := calib_queries
          calib_gt := calib_gt
          d_gt := d_gt }
        target_alpha)
    | _, _, _ => .error (-1)

/-! ## Closed forms used to describe the rounds of the adaptive search -/

/-- The test of line 150 for query `orig_idx` in round `p` run at effort `current_ef`. -/
def resolves (index : IndexHNSWFlat) (queries : List (List Flt)) (k : Nat)
    (params : ConannCalibParams) (p : Nat) (current_ef : Int) (orig_idx : Nat) : Bool :=
  decide (Flt.le (pi_hat params p (dist_k_of (index (queries.getD orig_idx []) k current_ef) k))
      params.lambda_hat = true
    ∨ p = params.ef_schedule.length - 1)

/-- The test of line 150 for query `q` in round `p`, run at the effort of position `p`. -/
def resolves_at (index : IndexHNSWFlat) (queries : List (List Flt)) (k : Nat)
    (params : ConannCalibParams) (p q : Nat) : Bool :=
  resolves index queries k params p (params.ef_schedule.getD p 0) q

/-- The queries that are still active after the first `p` rounds: all of them before round 0,
and after a round those that the round did not resolve. -/
def active_at (index : IndexHNSWFlat) (queries : List (List Flt)) (k : Nat)
    (params : ConannCalibParams) (nq : Nat) : Nat → List Nat
  | 0 => List.range nq
  | p + 1 =>
    (active_at index queries k params nq p).filter
      (fun q => !resolves_at index queries k params p q)

/-- The scatter events of round `p`: the active queries that the round resolves, in order. -/
def round_writes (index : IndexHNSWFlat) (queries : List (List Flt)) (k : Nat)
    (params : ConannCalibParams) (nq : Nat) (p : Nat) : List (Nat × Nat) :=
  ((active_at index queries k params nq p).filter
    (fun q => resolves_at index queries k params p q)).map (fun q => (p, q))

/-- The loop invariant of `search_hnsw_conann_batch` at the head of round `p`, for the output
buffers `fl0`, `fd0`, `eu0` the loop started from: the active list, the two logs, and for every
query either the untouched initial entry or the row of the round that resolved it. -/
structure RoundInv (index : IndexHNSWFlat) (queries : List (List Flt)) (k : Nat)
    (params : ConannCalibParams) (nq : Nat) (fl0 : Nat → List Int) (fd0 : Nat → List Flt)
    (eu0 : List Int) (p : Nat) (s : SearchState) : Prop where
  active : s.active_indices = active_at index queries k params nq p
  history : s.history = (List.range p).map (active_at index queries k params nq)
  writes : s.writes = (List.range p).flatMap (round_writes index queries k params nq)
  ef_length : s.ef_used.length = nq
  untouched : ∀ q, q ∈ active_at index queries k params nq p ∨ nq ≤ q →
    s.final_labels q = fl0 q ∧ s.final_distances q = fd0 q
      ∧ s.ef_used.getD q 0 = eu0.getD q 0
  resolved : ∀ q, q < nq → q ∉ active_at index queries k params nq p →
    ∃ j, j < p ∧ q ∈ active_at index queries k params nq j
      ∧ resolves_at index queries k params j q = true
      ∧ s.final_labels q = (index (queries.getD q []) k (params.ef_schedule.getD j 0)).labels
      ∧ s.final_distances q
          = (index (queries.getD q []) k (params.ef_schedule.getD j 0)).distances
      ∧ s.ef_used.getD q 0 = params.ef_schedule.getD j 0

/-! ## Reference definitions that follow the wording of the specification -/

/-- The resolving position in the words of the specification: the smallest position of the
schedule whose score is at most the threshold, or the last position when there is none. -/
def first_qualifying (score : Nat → Flt) (lambda_hat : Flt) (n : Nat) : Nat :=
  ((List.range n).find? (fun p => Flt.le (score p) lambda_hat)).getD (n - 1)

/-- The clamp of a value into `[0, 1]`. -/
def clamp01 (x : Flt) : Flt := Flt.std_max (Flt.fin 0) (Flt.std_min (Flt.fin 1) x)

/-- The score of query `q` at schedule position `p` in the words of the specification: the
k-th neighbour distance the index returns at the effort of position `p`, normalized with the
stored bounds and clamped into `[0, 1]`, plus `gamma * max(0, p - c_reg)`. -/
def spec_score (index : IndexHNSWFlat) (queries : List (List Flt)) (k : Nat)
    (params : ConannCalibParams) (q p : Nat) : Flt :=
  Flt.add
    (clamp01
      (Flt.div
        (Flt.sub (dist_k_of (index (queries.getD q []) k (params.ef_schedule.getD p 0)) k)
          params.min_dist)
        (Flt.sub params.max_dist params.min_dist)))
    (Flt.mul params.gamma (Flt.ofInt (max 0 ((p : Int) - params.c_reg))))

/-- The position `p*` of the specification for query `q`. -/
def spec_position (index : IndexHNSWFlat) (queries : List (List Flt)) (k : Nat)
    (params : ConannCalibParams) (q : Nat) : Nat :=
  first_qualifying (spec_score index queries k params q) params.lambda_hat
    params.ef_schedule.length

/-! ## Concrete inputs -/

/-- An index over one-neighbour rows: label 7, at distance 2 for `efSearch <= 1` and at
distance 1 above. -/
def demo_index : IndexHNSWFlat :=
  fun _ _ ef => { labels := [7], distances := [if ef ≤ 1 then Flt.fin 2 else Flt.fin 1] }

/-- An artifact with threshold 1/2, bounds 1 and 2 and the two-step schedule 1, 21. -/
def demo_params : ConannCalibParams :=
  { lambda_hat := Flt.fin (1 / 2)
    gamma := Flt.fin (1 / 100)
    c_reg := 2
    min_dist := Flt.fin 1
    max_dist := Flt.fin 2
    ef_schedule := [1, 21] }

/-- An index over one-neighbour rows that returns label 7 at distance 1 at every effort. -/
def flat_index : IndexHNSWFlat :=
  fun _ _ _ => { labels := [7], distances := [Flt.fin 1] }

/-- The candidates of the sweep in closed form: `i * 0.005` for `i = 0, .., 300`. -/
def lambda_cands : List Flt := (List.range 301).map (fun i : Nat => Flt.fin ((i : ℚ) / 200))

/-- The exact false-negative rate of a row at its selected column, as a rational:
`1 - |intersection| / k`. -/
def row_fnr_exact (inp : CalibInput) (lambda_cand : Flt) (row : Nat) : ℚ :=
  1 - ((intersection_size (all_preds_list inp row (selected_col inp row lambda_cand))
      ((gt_row inp row).take inp.k) (List.range inp.k) : Int) : ℚ) / (inp.k : ℚ)

/-- A calibration query set over `demo_index`: one query, `k = 1`, ground truth label 7. -/
def demo_calib : CalibInput :=
  { k := 1
    index := demo_index
    calib_queries := [[]]
    calib_gt := [7]
    d_gt := 1 }

/-- The files behind `demo_calib`, with `build` returning `demo_index`. -/
def demo_files : CalibFiles :=
  { xb := some [], calib_queries := some [[]], calib_gt := some ([7], 1) }

/-- A degenerate calibration query set: one query whose k-th neighbour distance is 1 at
every effort, over `flat_index`. -/
def flat_calib : CalibInput :=
  { k := 1
    index := flat_index
    calib_queries := [[]]
    calib_gt := [7]
    d_gt := 1 }

/-! ## Further definitions: the penalty term and the effort total of `main` in search.cpp -/

/-- The penalty term `gamma * std::max(0, static_cast<int>(p) - c_reg)` of both files
(calibrate.cpp line 178 with `p = col`, search.cpp line 146), for a position `p` and a
`c_reg` whose difference `p - c_reg` fits the `int` range; outside that range the C++
subtraction overflows and is not described by this definition. -/
def penalty (gamma : Flt) (c_reg : Int) (p : Nat) : Flt :=
  Flt.mul gamma (Flt.ofInt (max 0 ((p : Int) - c_reg)))

/-- Lines 234-240 of search.cpp: `total_ef`, the sum of `tracking_ef_used[i]` over the `nq`
queries. -/
def total_ef (tracking_ef_used : List Int) (nq : Nat) : Int :=
  (List.range nq).foldl (fun total i => total + tracking_ef_used.getD i 0) 0

/-! ## The artifact file: `save_conann_params` (calibrate.cpp lines 41-64) and
`load_conann_params` (search.cpp lines 51-81)

The text of the file is the list of its whitespace-delimited tokens, and a token is what its
text denotes.  `out << x` for a `float` writes with the default stream settings, the `%g`
conversion with precision 6: the text denotes `x` rounded to six significant decimal digits
(the choice between fixed and scientific notation and the removal of trailing zeros do not
change the number denoted).  Reading a decimal text into a `float` is exact here, as all
arithmetic on finite values. -/

/-- A token of the artifact file: the digits written for an integer, the decimal text written
for a finite `float` (by the number it denotes), or the text of a non-finite `float`
(`inf`, `nan`). -/
inductive Token where
  | int (z : Int)
  | dec (q : ℚ)
  | word
deriving DecidableEq

/-- Rounding to the nearest integer, ties to the even one. -/
def round_half_even (x : ℚ) : Int :=
  if x - (⌊x⌋ : ℚ) < 1 / 2 then ⌊x⌋
  else if 1 / 2 < x - (⌊x⌋ : ℚ) then ⌊x⌋ + 1
  else if ⌊x⌋ % 2 = 0 then ⌊x⌋ else ⌊x⌋ + 1

/-- The search for the decimal exponent of a positive number: the first `e`, counting up,
with `a < 10 ^ (e + 1)`. -/
def exponent_from : Nat → Int → ℚ → Int
  | 0, e, _ => e
  | fuel + 1, e, a => if a < (10 : ℚ) ^ (e + 1) then e else exponent_from fuel (e + 1) a

/-- The decimal exponent `floor (log10 a)` of a positive number between `10 ^ (-50)` and
`10 ^ 50`, a range that contains every positive finite `float`. -/
def decimal_exponent (a : ℚ) : Int := exponent_from 100 (-50) a

/-- The number denoted by the text that `out << x` writes for a finite `float` at the default
precision: `x` rounded to six significant decimal digits. -/
def six_digits (x : ℚ) : ℚ :=
  if x = 0 then 0
  else
    (if x < 0 then -1 else 1)
      * ((round_half_even (|x| / (10 : ℚ) ^ (decimal_exponent |x| - 5)) : ℚ)
          * (10 : ℚ) ^ (decimal_exponent |x| - 5))

/-- The token written by `out << x` for a `float`. -/
def put_float : Flt → Token
  | Flt.fin x => Token.dec (six_digits x)
  | _ => Token.word

/-- `save_conann_params`: the tokens written when the file could be opened, in order: the
five scalars, the schedule size and the schedule values. -/
def save_conann_params (lambda_hat gamma : Flt) (c_reg : Int) (min_dist max_dist : Flt)
    (ef_schedule : List Int) : List Token :=
  [put_float lambda_hat, put_float gamma, Token.int c_reg, put_float min_dist,
    put_float max_dist, Token.int (ef_schedule.length : Int)]
    ++ ef_schedule.map Token.int

/-- The extraction `in >> x` into a `float`; `none` when the token is not a number. -/
def get_float : Token → Option Flt
  | Token.int z => some (Flt.fin (z : ℚ))
  | Token.dec q => some (Flt.fin q)
  | Token.word => none

/-- The extraction `in >> x` into an `int`; `none` when the token is not the text of an
integer. -/
def get_int : Token → Option Int
  | Token.int z => some z
  | _ => none

/-- The extraction `in >> x` into a `size_t`; `none` when the token is not the text of a
non-negative integer. -/
def get_size : Token → Option Nat
  | Token.int z => if 0 ≤ z then some z.toNat else none
  | _ => none

/-- Lines 68-71 of search.cpp: the loop that reads `schedule_size` values. -/
def read_schedule : Nat → List Token → Option (List Int)
  | 0, _ => some []
  | _ + 1, [] => none
  | n + 1, t :: ts =>
    match get_int t, read_schedule n ts with
    | some z, some zs => some (z :: zs)
    | _, _ => none

/-- `load_conann_params` on the text of a file that could be opened.  The result is `none`
when an extraction fails (a token that does not parse, or the end of the file); the C++ goes
on with fields that are then unspecified, which is not modelled. -/
def load_conann_params (text : List Token) : Option ConannCalibParams :=
  match text with
  | t1 :: t2 :: t3 :: t4 :: t5 :: t6 :: rest =>
    match get_float t1, get_float t2, get_int t3, get_float t4, get_float t5, get_size t6 with
    | some lambda_hat, some gamma, some c_reg, some min_dist, some max_dist,
      some schedule_size =>
      match read_schedule schedule_size rest with
      | some ef_schedule =>
        some
          { lambda_hat := lambda_hat
            gamma := gamma
            c_reg := c_reg
            min_dist := min_dist
            max_dist := max_dist
            ef_schedule := ef_schedule }
      | none => none
    | _, _, _, _, _, _ => none
  | _ => none

/-- An artifact whose upper bound 1234567 has seven significant digits. -/
def wide_params : ConannCalibParams :=
  { lambda_hat := Flt.fin (1 / 2)
    gamma := Flt.fin (1 / 100)
    c_reg := 2
    min_dist := Flt.fin 0
    max_dist := Flt.fin 1234567
    ef_schedule := [1, 21] }

/-- The artifact `wide_params` with the upper bound 1234570. -/
def wide_params_reloaded : ConannCalibParams := { wide_params with max_dist := Flt.fin 1234570 }

/-- An index over one-neighbour rows that returns label 7 at distance 617284 at every
effort. -/
def edge_index : IndexHNSWFlat :=
  fun _ _ _ => { labels := [7], distances := [Flt.fin 617284] }

/-- An artifact with the bounds 0 and `+inf`, threshold 1 and the schedule 1, 21. -/
def inf_params : ConannCalibParams :=
  { lambda_hat := Flt.fin 1
    gamma := Flt.fin 0
    c_reg := 2
    min_dist := Flt.fin 0
    max_dist := Flt.pinf
    ef_schedule := [1, 21] }

/-- An index over one-neighbour rows that returns label 7 at distance `+inf` at every
effort. -/
def inf_index : IndexHNSWFlat :=
  fun _ _ _ => { labels := [7], distances := [Flt.pinf] }

/-! ## Further reference definitions that follow the wording of the specification -/

/-- The false-negative rate in the words of the specification: the fraction of the `k`
ground-truth identifiers that do not occur in the returned list. -/
def missing_fraction (preds gt_row : List Int) (k : Nat) : ℚ :=
  (((gt_row.take k).filter (fun g => decide (g ∉ preds))).length : ℚ) / (k : ℚ)

/-- The score of the calibration rule in the words of the specification, for an arbitrary
artifact: the normalized k-th neighbour distance, not clamped, plus the penalty. -/
def calib_rule_score (params : ConannCalibParams) (dist_k : Flt) (p : Nat) : Flt :=
  Flt.add
    (Flt.div (Flt.sub dist_k params.min_dist) (Flt.sub params.max_dist params.min_dist))
    (Flt.mul params.gamma (Flt.ofInt (max 0 ((p : Int) - params.c_reg))))

/-- The column of the calibration rule in the words of the specification: the first column
whose score, not clamped, is at most `lambda_hat`, or the last column when there is none. -/
def calib_rule_position (index : IndexHNSWFlat) (queries : List (List Flt)) (k : Nat)
    (params : ConannCalibParams) (q : Nat) : Nat :=
  first_qualifying
    (fun p => calib_rule_score params
      (dist_k_of (index (queries.getD q []) k (params.ef_schedule.getD p 0)) k) p)
    params.lambda_hat params.ef_schedule.length

/-! ## Arithmetic on finite values -/

theorem fadd_fin (a b : ℚ) : Flt.add (Flt.fin a) (Flt.fin b) = Flt.fin (a + b) := rfl

theorem fsub_fin (a b : ℚ) : Flt.sub (Flt.fin a) (Flt.fin b) = Flt.fin (a - b) := by
  simp only [Flt.sub, Flt.neg, Flt.add, sub_eq_add_neg]

theorem fmul_fin (a b : ℚ) : Flt.mul (Flt.fin a) (Flt.fin b) = Flt.fin (a * b) := rfl

theorem fdiv_fin (a b : ℚ) (hb : b ≠ 0) :
    Flt.div (Flt.fin a) (Flt.fin b) = Flt.fin (a / b) := by
  simp only [Flt.div, if_neg hb]

theorem fle_fin (a b : ℚ) : Flt.le (Flt.fin a) (Flt.fin b) = decide (a ≤ b) := rfl

theorem flt_fin (a b : ℚ) : Flt.lt (Flt.fin a) (Flt.fin b) = decide (a < b) := rfl

/-! ## Facts about one round of the adaptive search -/

section Rounds

variable (index : IndexHNSWFlat) (queries : List (List Flt)) (k : Nat)
  (params : ConannCalibParams)

theorem stopping_pass_cons_pos (p : Nat) (ef : Int) (x : Nat) (l : List Nat) (s : SearchState)
    (h : resolves index queries k params p ef x = true) :
    stopping_pass index queries k params p ef (x :: l) s
      = stopping_pass index queries k params p ef l
          { s with
            final_labels :=
              Function.update s.final_labels x (index (queries.getD x []) k ef).labels
            final_distances :=
              Function.update s.final_distances x (index (queries.getD x []) k ef).distances
            ef_used := s.ef_used.set x ef
            writes := s.writes ++ [(p, x)] } := by
  have h2 : Flt.le (pi_hat params p (dist_k_of (index (queries.getD x []) k ef) k))
      params.lambda_hat = true ∨ p = params.ef_schedule.length - 1 := by
    simpa [resolves] using h
  simp only [stopping_pass]
  rw [if_pos h2]

theorem stopping_pass_cons_neg (p : Nat) (ef : Int) (x : Nat) (l : List Nat) (s : SearchState)
    (h : resolves index queries k params p ef x = false) :
    stopping_pass index queries k params p ef (x :: l) s
      = stopping_pass index queries k params p ef l
          { s with next_active_indices := s.next_active_indices ++ [x] } := by
  have h2 : ¬ (Flt.le (pi_hat params p (dist_k_of (index (queries.getD x []) k ef) k))
      params.lambda_hat = true ∨ p = params.ef_schedule.length - 1) := by
    intro h3
    have : resolves index queries k params p ef x = true := by
      simpa [resolves] using h3
    rw [h] at this
    exact Bool.false_ne_true this
  simp only [stopping_pass]
  rw [if_neg h2]

theorem stopping_pass_active (p : Nat) (ef : Int) (l : List Nat) (s : SearchState) :
    (stopping_pass index queries k params p ef l s).active_indices = s.active_indices := by
  induction l generalizing s with
  | nil => rfl
  | cons x l ih =>
    cases hx : resolves index queries k params p ef x
    · rw [stopping_pass_cons_neg _ _ _ _ _ _ _ _ _ hx, ih]
    · rw [stopping_pass_cons_pos _ _ _ _ _ _ _ _ _ hx, ih]

theorem stopping_pass_history (p : Nat) (ef : Int) (l : List Nat) (s : SearchState) :
    (stopping_pass index queries k params p ef l s).history = s.history := by
  induction l generalizing s with
  | nil => rfl
  | cons x l ih =>
    cases hx : resolves index queries k params p ef x
    · rw [stopping_pass_cons_neg _ _ _ _ _ _ _ _ _ hx, ih]
    · rw [stopping_pass_cons_pos _ _ _ _ _ _ _ _ _ hx, ih]

theorem stopping_pass_next (p : Nat) (ef : Int) (l : List Nat) (s : SearchState) :
    (stopping_pass index queries k params p ef l s).next_active_indices
      = s.next_active_indices
        ++ l.filter (fun q => !resolves index queries k params p ef q) := by
  induction l generalizing s with
  | nil => simp [stopping_pass]
  | cons x l ih =>
    cases hx : resolves index queries k params p ef x
    · rw [stopping_pass_cons_neg _ _ _ _ _ _ _ _ _ hx, ih]
      simp [List.filter_cons, hx]
    · rw [stopping_pass_cons_pos _ _ _ _ _ _ _ _ _ hx, ih]
      simp [List.filter_cons, hx]

theorem stopping_pass_writes (p : Nat) (ef : Int) (l : List Nat) (s : SearchState) :
    (stopping_pass index queries k params p ef l s).writes
      = s.writes
        ++ (l.filter (fun q => resolves index queries k params p ef q)).map
            (fun q => (p, q)) := by
  induction l generalizing s with
  | nil => simp [stopping_pass]
  | cons x l ih =>
    cases hx : resolves index queries k params p ef x
    · rw [stopping_pass_cons_neg _ _ _ _ _ _ _ _ _ hx, ih]
      simp [List.filter_cons, hx]
    · rw [stopping_pass_cons_pos _ _ _ _ _ _ _ _ _ hx, ih]
      simp [List.filter_cons, hx]

theorem stopping_pass_labels (p : Nat) (ef : Int) (l : List Nat) (s : SearchState) (q : Nat) :
    (stopping_pass index queries k params p ef l s).final_labels q
      = if q ∈ l ∧ resolves index queries k params p ef q = true
        then (index (queries.getD q []) k ef).labels else s.final_labels q := by
  induction l generalizing s with
  | nil => simp [stopping_pass]
  | cons x l ih =>
    cases hx : resolves index queries k params p ef x
    · rw [stopping_pass_cons_neg _ _ _ _ _ _ _ _ _ hx, ih]
      by_cases hq : q = x
      · subst hq
        simp [hx]
      · simp [hq]
    · rw [stopping_pass_cons_pos _ _ _ _ _ _ _ _ _ hx, ih]
      by_cases hq : q = x
      · subst hq
        simp [hx]
      · simp [hq, Function.update_noteq hq]

theorem stopping_pass_distances (p : Nat) (ef : Int) (l : List Nat) (s : SearchState)
    (q : Nat) :
    (stopping_pass index queries k params p ef l s).final_distances q
      = if q ∈ l ∧ resolves index queries k params p ef q = true
        then (index (queries.getD q []) k ef).distances else s.final_distances q := by
  induction l generalizing s with
  | nil => simp [stopping_pass]
  | cons x l ih =>
    cases hx : resolves index queries k params p ef x
    · rw [stopping_pass_cons_neg _ _ _ _ _ _ _ _ _ hx, ih]
      by_cases hq : q = x
      · subst hq
        simp [hx]
      · simp [hq]
    · rw [stopping_pass_cons_pos _ _ _ _ _ _ _ _ _ hx, ih]
      by_cases hq : q = x
      · subst hq
        simp [hx]
      · simp [hq, Function.update_noteq hq]

theorem stopping_pass_ef_length (p : Nat) (ef : Int) (l : List Nat) (s : SearchState) :
    (stopping_pass index queries k params p ef l s).ef_used.length = s.ef_used.length := by
  induction l generalizing s with
  | nil => rfl
  | cons x l ih =>
    cases hx : resolves index queries k params p ef x
    · rw [stopping_pass_cons_neg _ _ _ _ _ _ _ _ _ hx, ih]
    · rw [stopping_pass_cons_pos _ _ _ _ _ _ _ _ _ hx, ih]
      simp

theorem getD_set_int (v : List Int) (i q : Nat) (x : Int) :
    (v.set i x).getD q 0 = if i = q ∧ q < v.length then x else v.getD q 0 := by
  simp only [List.getD_eq_getElem?_getD, List.getElem?_set]
  by_cases h : i = q
  · subst h
    by_cases hl : i < v.length
    · simp [hl]
    · have hn : v[i]? = none := List.getElem?_eq_none (Nat.le_of_not_lt hl)
      simp [hl, hn]
  · simp [h]

theorem stopping_pass_ef_used (p : Nat) (ef : Int) (l : List Nat) (s : SearchState)
    (q : Nat) :
    (stopping_pass index queries k params p ef l s).ef_used.getD q 0
      = if q ∈ l ∧ resolves index queries k params p ef q = true ∧ q < s.ef_used.length
        then ef else s.ef_used.getD q 0 := by
  induction l generalizing s with
  | nil => simp [stopping_pass]
  | cons x l ih =>
    cases hx : resolves index queries k params p ef x
    · rw [stopping_pass_cons_neg _ _ _ _ _ _ _ _ _ hx, ih]
      by_cases hq : q = x
      · subst hq
        simp [hx]
      · simp [hq]
    · rw [stopping_pass_cons_pos _ _ _ _ _ _ _ _ _ hx, ih]
      simp only [List.length_set, getD_set_int]
      by_cases hq : q = x
      · subst hq
        by_cases hl : q < s.ef_used.length
        · simp [hx, hl]
        · simp [hx, hl]
      · have hq2 : ¬ x = q := fun e => hq e.symm
        simp [hq, hq2]

theorem mem_active_at_lt (nq p q : Nat)
    (h : q ∈ active_at index queries k params nq p) : q < nq := by
  induction p with
  | zero => simpa [active_at] using h
  | succ p ih =>
    simp only [active_at, List.mem_filter] at h
    exact ih h.1

theorem mem_active_at_succ (nq p q : Nat) :
    q ∈ active_at index queries k params nq (p + 1)
      ↔ q ∈ active_at index queries k params nq p
        ∧ resolves_at index queries k params p q = false := by
  simp [active_at, List.mem_filter]

theorem nodup_active_at (nq p : Nat) : (active_at index queries k params nq p).Nodup := by
  induction p with
  | zero => exact List.nodup_range nq
  | succ p ih => exact ih.filter _

theorem roundInv_init (nq : Nat) (fl0 : Nat → List Int) (fd0 : Nat → List Flt)
    (eu : List Int) :
    RoundInv index queries k params nq fl0 fd0 (resize eu nq) 0
      { active_indices := List.range nq
        next_active_indices := []
        final_labels := fl0
        final_distances := fd0
        ef_used := resize eu nq
        writes := []
        history := [] } where
  active := rfl
  history := rfl
  writes := rfl
  ef_length := by
    simp only [resize, List.length_append, List.length_take, List.length_replicate]
    omega
  untouched := fun _ _ => ⟨rfl, rfl, rfl⟩
  resolved := fun q hq hn => absurd (by simpa [active_at] using hq) hn

theorem roundInv_step (nq : Nat) (fl0 : Nat → List Int) (fd0 : Nat → List Flt)
    (eu0 : List Int) (p : Nat) (s : SearchState)
    (inv : RoundInv index queries k params nq fl0 fd0 eu0 p s) :
    RoundInv index queries k params nq fl0 fd0 eu0 (p + 1)
      { stopping_pass index queries k params p (params.ef_schedule.getD p 0) s.active_indices
          { s with next_active_indices := [], history := s.history ++ [s.active_indices] } with
        active_indices :=
          (stopping_pass index queries k params p (params.ef_schedule.getD p 0)
            s.active_indices
            { s with next_active_indices := [],
                     history := s.history ++ [s.active_indices] }).next_active_indices } where
  active := by
    simp only [stopping_pass_next, List.nil_append, inv.active, active_at, resolves_at]
  history := by
    simp only [stopping_pass_history, inv.history, inv.active, List.range_succ, List.map_append,
      List.map_cons, List.map_nil]
  writes := by
    simp only [stopping_pass_writes, inv.writes, inv.active, List.range_succ,
      List.flatMap_append, List.flatMap_cons, List.flatMap_nil, List.append_nil, round_writes,
      resolves_at]
  ef_length := by
    simp only [stopping_pass_ef_length, inv.ef_length]
  untouched := by
    intro q hq
    have hnot : ¬ (q ∈ s.active_indices
        ∧ resolves index queries k params p (params.ef_schedule.getD p 0) q = true) := by
      rintro ⟨hm, hr⟩
      rw [inv.active] at hm
      rcases hq with hq | hq
      · have := ((mem_active_at_succ index queries k params nq p q).1 hq).2
        rw [resolves_at, hr] at this
        exact Bool.noConfusion this
      · exact absurd (mem_active_at_lt index queries k params nq p q hm) (Nat.not_lt.2 hq)
    have hold : q ∈ active_at index queries k params nq p ∨ nq ≤ q := by
      rcases hq with hq | hq
      · exact Or.inl ((mem_active_at_succ index queries k params nq p q).1 hq).1
      · exact Or.inr hq
    have hnot2 : ¬ (q ∈ s.active_indices
        ∧ resolves index queries k params p (params.ef_schedule.getD p 0) q = true
        ∧ q < s.ef_used.length) := fun h => hnot ⟨h.1, h.2.1⟩
    obtain ⟨h1, h2, h3⟩ := inv.untouched q hold
    refine ⟨?_, ?_, ?_⟩
    · simp only [stopping_pass_labels, if_neg hnot, h1]
    · simp only [stopping_pass_distances, if_neg hnot, h2]
    · simp only [stopping_pass_ef_used, if_neg hnot2, h3]
  resolved := by
    intro q hq hn
    by_cases hm : q ∈ active_at index queries k params nq p
    · have hr : resolves_at index queries k params p q = true := by
        cases hres : resolves_at index queries k params p q
        · exact absurd ((mem_active_at_succ index queries k params nq p q).2 ⟨hm, hres⟩) hn
        · rfl
      have hpos : q ∈ s.active_indices
          ∧ resolves index queries k params p (params.ef_schedule.getD p 0) q = true := by
        rw [inv.active]
        exact ⟨hm, hr⟩
      have hpos2 : q ∈ s.active_indices
          ∧ resolves index queries k params p (params.ef_schedule.getD p 0) q = true
          ∧ q < s.ef_used.length := by
        refine ⟨hpos.1, hpos.2, ?_⟩
        rw [inv.ef_length]
        exact hq
      refine ⟨p, Nat.lt_succ_self p, hm, hr, ?_, ?_, ?_⟩
      · simp only [stopping_pass_labels, if_pos hpos]
      · simp only [stopping_pass_distances, if_pos hpos]
      · simp only [stopping_pass_ef_used, if_pos hpos2]
    · obtain ⟨j, hj, hmj, hrj, h1, h2, h3⟩ := inv.resolved q hq hm
      have hnot : ¬ (q ∈ s.active_indices
          ∧ resolves index queries k params p (params.ef_schedule.getD p 0) q = true) := by
        rintro ⟨hm2, _⟩
        rw [inv.active] at hm2
        exact hm hm2
      have hnot2 : ¬ (q ∈ s.active_indices
          ∧ resolves index queries k params p (params.ef_schedule.getD p 0) q = true
          ∧ q < s.ef_used.length) := fun h => hnot ⟨h.1, h.2.1⟩
      refine ⟨j, Nat.lt_succ_of_lt hj, hmj, hrj, ?_, ?_, ?_⟩
      · simp only [stopping_pass_labels, if_neg hnot, h1]
      · simp only [stopping_pass_distances, if_neg hnot, h2]
      · simp only [stopping_pass_ef_used, if_neg hnot2, h3]

/-- The schedule loop from an invariant state: it stops after `m` rounds in total, with the
invariant of round `m`, either because the active list is empty or because the schedule is
exhausted. -/
theorem search_loop_inv (nq : Nat) (fl0 : Nat → List Int) (fd0 : Nat → List Flt)
    (eu0 : List Int) (rest : List Int) :
    ∀ (p : Nat) (s : SearchState), params.ef_schedule.drop p = rest →
      p ≤ params.ef_schedule.length →
      RoundInv index queries k params nq fl0 fd0 eu0 p s →
      ∃ m, p ≤ m ∧ m ≤ params.ef_schedule.length
        ∧ RoundInv index queries k params nq fl0 fd0 eu0 m
            (search_loop index queries k params p rest s)
        ∧ ((search_loop index queries k params p rest s).active_indices = []
            ∨ m = params.ef_schedule.length) := by
  induction rest with
  | nil =>
    intro p s hdrop hp inv
    have hlen : params.ef_schedule.length ≤ p := by
      simpa using hdrop
    have hpe : p = params.ef_schedule.length := Nat.le_antisymm hp hlen
    exact ⟨p, Nat.le_refl p, hp, by simpa [search_loop] using inv, Or.inr hpe⟩
  | cons ef rest ih =>
    intro p s hdrop hp inv
    have hlt : p < params.ef_schedule.length := by
      by_contra hge
      have : params.ef_schedule.drop p = [] := List.drop_eq_nil_of_le (Nat.le_of_not_lt hge)
      rw [this] at hdrop
      exact List.noConfusion hdrop
    rw [List.drop_eq_getElem_cons hlt] at hdrop
    have hef : ef = params.ef_schedule.getD p 0 := by
      rw [List.getD_eq_getElem _ _ hlt]
      exact (List.cons.inj hdrop).1.symm
    have hrest : params.ef_schedule.drop (p + 1) = rest := (List.cons.inj hdrop).2
    by_cases hz : s.active_indices.length = 0
    · refine ⟨p, Nat.le_refl p, hp, ?_, Or.inl ?_⟩
      · simpa [search_loop, hz] using inv
      · have hnil : s.active_indices = [] := List.length_eq_zero.1 hz
        simp only [search_loop, if_pos hz]
        exact hnil
    · have hstep := roundInv_step index queries k params nq fl0 fd0 eu0 p s inv
      obtain ⟨m, hm1, hm2, hinv, hfin⟩ := ih (p + 1) _ hrest hlt hstep
      refine ⟨m, Nat.le_of_succ_le hm1, hm2, ?_, ?_⟩
      · simp only [search_loop, if_neg hz, hef]
        exact hinv
      · simp only [search_loop, if_neg hz, hef]
        exact hfin

theorem active_at_length_eq_nil (nq : Nat) (hne : params.ef_schedule ≠ []) :
    active_at index queries k params nq params.ef_schedule.length = [] := by
  have hpos : 0 < params.ef_schedule.length := List.length_pos.2 hne
  obtain ⟨n, hn⟩ : ∃ n, params.ef_schedule.length = n + 1 :=
    ⟨params.ef_schedule.length - 1, by omega⟩
  rw [hn, active_at, List.filter_eq_nil_iff]
  intro q _
  simp [resolves_at, resolves, hn]

/-- The state returned by `search_hnsw_conann_batch` satisfies the invariant of the round `m`
at which the loop stopped. -/
theorem search_batch_inv (nq : Nat) (fl0 : Nat → List Int) (fd0 : Nat → List Flt)
    (eu : List Int) :
    ∃ m, m ≤ params.ef_schedule.length
      ∧ RoundInv index queries k params nq fl0 fd0 (resize eu nq) m
          (search_hnsw_conann_batch index nq queries k params fl0 fd0 eu)
      ∧ ((search_hnsw_conann_batch index nq queries k params fl0 fd0 eu).active_indices = []
          ∨ m = params.ef_schedule.length) := by
  obtain ⟨m, _, hm, hinv, hfin⟩ :=
    search_loop_inv index queries k params nq fl0 fd0 (resize eu nq) params.ef_schedule 0 _
      (List.drop_zero _) (Nat.zero_le _) (roundInv_init index queries k params nq fl0 fd0 eu)
  exact ⟨m, hm, hinv, hfin⟩

theorem search_batch_active_nil (nq : Nat) (fl0 : Nat → List Int) (fd0 : Nat → List Flt)
    (eu : List Int) (hne : params.ef_schedule ≠ []) :
    ∃ m, m ≤ params.ef_schedule.length
      ∧ RoundInv index queries k params nq fl0 fd0 (resize eu nq) m
          (search_hnsw_conann_batch index nq queries k params fl0 fd0 eu)
      ∧ active_at index queries k params nq m = [] := by
  obtain ⟨m, hm, hinv, hfin⟩ := search_batch_inv index queries k params nq fl0 fd0 eu
  refine ⟨m, hm, hinv, ?_⟩
  rcases hfin with h | h
  · rw [← hinv.active]
    exact h
  · rw [h]
    exact active_at_length_eq_nil index queries k params nq hne

theorem mem_active_at_iff (nq p q : Nat) :
    q ∈ active_at index queries k params nq p
      ↔ q < nq ∧ ∀ i, i < p → resolves_at index queries k params i q = false := by
  induction p with
  | zero => simp [active_at]
  | succ p ih =>
    rw [mem_active_at_succ, ih]
    constructor
    · rintro ⟨⟨h1, h2⟩, h3⟩
      refine ⟨h1, fun i hi => ?_⟩
      rcases Nat.lt_succ_iff_lt_or_eq.1 hi with h | h
      · exact h2 i h
      · rw [h]
        exact h3
    · rintro ⟨h1, h2⟩
      exact ⟨⟨h1, fun i hi => h2 i (Nat.lt_succ_of_lt hi)⟩, h2 p (Nat.lt_succ_self p)⟩

theorem find_range_none (f : Nat → Bool) (n : Nat) (h : ∀ i, i < n → f i = false) :
    (List.range n).find? f = none := by
  rw [List.find?_eq_none]
  intro x hx
  rw [h x (List.mem_range.1 hx)]
  exact Bool.false_ne_true

theorem find_range_some (f : Nat → Bool) (n j : Nat) (hj : j < n) (hf : f j = true)
    (hlt : ∀ i, i < j → f i = false) : (List.range n).find? f = some j := by
  induction n with
  | zero => exact absurd hj (Nat.not_lt_zero j)
  | succ n ih =>
    rw [List.range_succ, List.find?_append]
    rcases Nat.lt_succ_iff_lt_or_eq.1 hj with h | h
    · rw [ih h]
      rfl
    · subst h
      rw [find_range_none f j hlt]
      simp [List.find?, hf]

/-- A position that resolves a query which is active there is the position named by the
specification: the first one whose score passes, or the last one. -/
theorem first_qualifying_eq (score : Nat → Flt) (lambda_hat : Flt) (n j : Nat) (hj : j < n)
    (hres : Flt.le (score j) lambda_hat = true ∨ j = n - 1)
    (hbefore : ∀ i, i < j → Flt.le (score i) lambda_hat = false) :
    first_qualifying score lambda_hat n = j := by
  unfold first_qualifying
  by_cases hf : Flt.le (score j) lambda_hat = true
  · rw [find_range_some (fun p => Flt.le (score p) lambda_hat) n j hj hf hbefore]
    rfl
  · have hjn : j = n - 1 := by
      rcases hres with h | h
      · exact absurd h hf
      · exact h
    have hall : ∀ i, i < n → Flt.le (score i) lambda_hat = false := by
      intro i hi
      by_cases hij : i < j
      · exact hbefore i hij
      · have : i = j := by omega
        rw [this]
        simpa using hf
    rw [find_range_none (fun p => Flt.le (score p) lambda_hat) n hall, hjn]
    rfl

theorem resolves_at_false_iff (p q : Nat) :
    resolves_at index queries k params p q = false
      ↔ Flt.le (pi_hat params p
            (dist_k_of (index (queries.getD q []) k (params.ef_schedule.getD p 0)) k))
          params.lambda_hat = false ∧ p ≠ params.ef_schedule.length - 1 := by
  simp [resolves_at, resolves]

theorem resolves_at_true_iff (p q : Nat) :
    resolves_at index queries k params p q = true
      ↔ Flt.le (pi_hat params p
            (dist_k_of (index (queries.getD q []) k (params.ef_schedule.getD p 0)) k))
          params.lambda_hat = true ∨ p = params.ef_schedule.length - 1 := by
  simp [resolves_at, resolves]

theorem filter_eq_of_nodup (r : Nat → Bool) (q : Nat) (l : List Nat) (hl : l.Nodup) :
    (l.filter r).filter (fun x => decide (x = q))
      = if q ∈ l ∧ r q = true then [q] else [] := by
  induction l with
  | nil => simp
  | cons x l ih =>
    have hx : x ∉ l := (List.nodup_cons.1 hl).1
    have ih2 := ih (List.nodup_cons.1 hl).2
    by_cases hxq : x = q
    · subst hxq
      have hnot : ¬ (x ∈ l ∧ r x = true) := fun h => hx h.1
      rw [if_neg hnot] at ih2
      cases hr : r x
      · simp [List.filter_cons, hr, ih2]
      · simp [List.filter_cons, hr, ih2]
    · have hqx : ¬ q = x := fun e => hxq e.symm
      cases hr : r x
      · simp [List.filter_cons, hr, ih2, hqx]
      · simp [List.filter_cons, hr, ih2, hqx, hxq]

theorem round_writes_filter (nq p q : Nat) :
    (round_writes index queries k params nq p).filter (fun w => decide (w.2 = q))
      = if q ∈ active_at index queries k params nq p
            ∧ resolves_at index queries k params p q = true
        then [(p, q)] else [] := by
  have h := filter_eq_of_nodup (fun x => resolves_at index queries k params p x) q
    (active_at index queries k params nq p) (nodup_active_at index queries k params nq p)
  unfold round_writes
  rw [List.filter_map]
  have hcomp : ((fun w : Nat × Nat => decide (w.2 = q)) ∘ fun x => (p, x))
      = fun x => decide (x = q) := rfl
  rw [hcomp, h]
  split_ifs <;> rfl

theorem writes_filter_nil (nq q : Nat) (m : Nat)
    (h : ∀ i, i < m → ¬ (q ∈ active_at index queries k params nq i
        ∧ resolves_at index queries k params i q = true)) :
    ((List.range m).flatMap (round_writes index queries k params nq)).filter
      (fun w => decide (w.2 = q)) = [] := by
  induction m with
  | zero => rfl
  | succ m ih =>
    rw [List.range_succ, List.flatMap_append, List.filter_append,
      ih (fun i hi => h i (Nat.lt_succ_of_lt hi))]
    simp only [List.flatMap_cons, List.flatMap_nil, List.append_nil, List.nil_append]
    rw [round_writes_filter, if_neg (h m (Nat.lt_succ_self m))]

theorem not_mem_active_at_after (nq q j i : Nat) (hji : j < i)
    (hr : resolves_at index queries k params j q = true) :
    q ∉ active_at index queries k params nq i := by
  intro hmem
  have := ((mem_active_at_iff index queries k params nq i q).1 hmem).2 j hji
  rw [hr] at this
  exact Bool.noConfusion this

theorem writes_filter_single (nq q j : Nat) (m : Nat) (hj : j < m)
    (hmem : q ∈ active_at index queries k params nq j)
    (hr : resolves_at index queries k params j q = true) :
    ((List.range m).flatMap (round_writes index queries k params nq)).filter
      (fun w => decide (w.2 = q)) = [(j, q)] := by
  induction m with
  | zero => exact absurd hj (Nat.not_lt_zero j)
  | succ m ih =>
    rw [List.range_succ, List.flatMap_append, List.filter_append]
    simp only [List.flatMap_cons, List.flatMap_nil, List.append_nil]
    rw [round_writes_filter]
    rcases Nat.lt_succ_iff_lt_or_eq.1 hj with h | h
    · rw [ih h, if_neg]
      · rfl
      · exact fun hc => not_mem_active_at_after index queries k params nq q j m h hr hc.1
    · subst h
      rw [writes_filter_nil index queries k params nq q j, if_pos ⟨hmem, hr⟩]
      · rfl
      · intro i hi hc
        have := ((mem_active_at_iff index queries k params nq j q).1 hmem).2 i hi
        rw [hc.2] at this
        exact Bool.noConfusion this

theorem mem_round_writes (nq p : Nat) (w : Nat × Nat)
    (h : w ∈ round_writes index queries k params nq p) :
    w.1 = p ∧ w.2 ∈ active_at index queries k params nq p
      ∧ resolves_at index queries k params p w.2 = true := by
  simp only [round_writes, List.mem_map, List.mem_filter] at h
  obtain ⟨x, ⟨hx1, hx2⟩, rfl⟩ := h
  exact ⟨rfl, hx1, hx2⟩

end Rounds

/-! ## Facts about the CRC sweep -/

theorem fle_trans (a b c : Flt) (hab : Flt.le a b = true) (hbc : Flt.le b c = true) :
    Flt.le a c = true := by
  cases a <;> cases b <;> cases c <;> simp_all [Flt.le]
  exact le_trans hab hbc

theorem fle_fin_self (x : ℚ) : Flt.le (Flt.fin x) (Flt.fin x) = true := by
  simp [Flt.le]

/-- The sweep as a fold over a list of candidates. -/
theorem crc_sweep_range (inp : CalibInput) (alpha : Flt) (d : Nat) :
    ∀ (i fuel : Nat) (st : SweepState), i + d = 301 → d ≤ fuel →
      crc_sweep inp alpha fuel (Flt.fin ((i : ℚ) / 200)) st
        = ((List.range' i d).map (fun j : Nat => Flt.fin ((j : ℚ) / 200))).foldl
            (fun st lam => sweep_body inp alpha lam st) st := by
  induction d with
  | zero =>
    intro i fuel st hi _
    have hi2 : i = 301 := by omega
    subst hi2
    cases fuel with
    | zero => rfl
    | succ f =>
      have hle : Flt.le (Flt.fin (((301 : Nat) : ℚ) / 200)) (Flt.fin (3 / 2)) = false := by
        simp only [Flt.le]
        norm_num
      simp only [crc_sweep, hle, List.range'_zero, List.map_nil, List.foldl_nil]
      rfl
  | succ d ih =>
    intro i fuel st hi hfuel
    obtain ⟨f, rfl⟩ : ∃ f, fuel = f + 1 := ⟨fuel - 1, by omega⟩
    have hi300 : (i : ℚ) ≤ 300 := by
      have : i ≤ 300 := by omega
      exact_mod_cast this
    have hle : Flt.le (Flt.fin ((i : ℚ) / 200)) (Flt.fin (3 / 2)) = true := by
      simp only [Flt.le, decide_eq_true_eq]
      linarith
    have hnext : Flt.add (Flt.fin ((i : ℚ) / 200)) (Flt.fin (1 / 200))
        = Flt.fin (((i + 1 : Nat) : ℚ) / 200) := by
      simp only [Flt.add]
      congr 1
      push_cast
      ring
    simp only [crc_sweep, hle, if_true, List.range'_succ, List.map_cons, List.foldl_cons]
    rw [hnext]
    exact ih (i + 1) f _ (by omega) (by omega)

/-- The iteration bound `sweep_fuel` is not reached: the sweep visits exactly the 301
candidates `lambda_cands`, in order. -/
theorem crc_sweep_eq_foldl (inp : CalibInput) (alpha : Flt) (st : SweepState) :
    crc_sweep inp alpha sweep_fuel (Flt.fin 0) st
      = lambda_cands.foldl (fun st lam => sweep_body inp alpha lam st) st := by
  have h := crc_sweep_range inp alpha 301 0 sweep_fuel st (by norm_num) (by norm_num [sweep_fuel])
  simp only [Nat.cast_zero, zero_div] at h
  rw [h, lambda_cands, List.range_eq_range']

/-- Whether a candidate is recorded as valid (line 222). -/
theorem foldl_best_lambda (inp : CalibInput) (alpha : Flt) (L : List Flt) :
    ∀ st : SweepState,
      (L.foldl (fun st lam => sweep_body inp alpha lam st) st).best_lambda
        = ((L.filter (fun lam => Flt.le (expected_risk inp lam) alpha)).getLast?).getD
            st.best_lambda := by
  induction L with
  | nil => intro st; rfl
  | cons x L ih =>
    intro st
    rw [List.foldl_cons, ih]
    cases hx : Flt.le (expected_risk inp x) alpha
    · simp [List.filter_cons, hx, sweep_body]
    · simp [List.filter_cons, hx, sweep_body, List.getLast?_cons]

theorem foldl_csv (inp : CalibInput) (alpha : Flt) (L : List Flt) :
    ∀ st : SweepState,
      (L.foldl (fun st lam => sweep_body inp alpha lam st) st).csv
        = st.csv ++ L.map (fun lam => (lam, expected_risk inp lam)) := by
  induction L with
  | nil => intro st; simp
  | cons x L ih =>
    intro st
    rw [List.foldl_cons, ih]
    simp [sweep_body]

/-- The threshold that calibration saves: the last valid candidate of the sweep, or the
initial value -1. -/
theorem calibrate_lambda_hat (inp : CalibInput) (alpha : Flt) :
    (calibrate inp alpha).artifact.lambda_hat
      = ((lambda_cands.filter (fun lam => Flt.le (expected_risk inp lam) alpha)).getLast?).getD
          (Flt.fin (-1)) := by
  simp only [calibrate, crc_sweep_eq_foldl, foldl_best_lambda]

theorem calibrate_csv (inp : CalibInput) (alpha : Flt) :
    (calibrate inp alpha).csv = lambda_cands.map (fun lam => (lam, expected_risk inp lam)) := by
  simp only [calibrate, crc_sweep_eq_foldl, foldl_csv, List.nil_append]

theorem calibrate_min_dist (inp : CalibInput) (alpha : Flt) :
    (calibrate inp alpha).artifact.min_dist = global_min_dist inp := by
  simp only [calibrate]

theorem calibrate_max_dist (inp : CalibInput) (alpha : Flt) :
    (calibrate inp alpha).artifact.max_dist = global_max_dist inp := by
  simp only [calibrate]

theorem lambda_cands_pairwise :
    lambda_cands.Pairwise (fun a b => Flt.le a b = true) := by
  unfold lambda_cands
  rw [List.pairwise_map]
  refine List.Pairwise.imp ?_ (List.pairwise_lt_range 301)
  intro a b hab
  simp only [Flt.le, decide_eq_true_eq]
  have : (a : ℚ) < b := by exact_mod_cast hab
  linarith

theorem mem_lambda_cands (lam : Flt) (h : lam ∈ lambda_cands) :
    ∃ x : ℚ, lam = Flt.fin x ∧ 0 ≤ x ∧ x ≤ 3 / 2 := by
  simp only [lambda_cands, List.mem_map, List.mem_range] at h
  obtain ⟨i, hi, hlam⟩ := h
  have h0 : (0 : ℚ) ≤ (i : ℚ) := Nat.cast_nonneg i
  have h300 : (i : ℚ) ≤ 300 := by
    have : i ≤ 300 := by omega
    exact_mod_cast this
  exact ⟨(i : ℚ) / 200, hlam.symm, by linarith, by linarith⟩

theorem getLast_is_greatest (l : List Flt) (hl : l.Pairwise (fun a b => Flt.le a b = true))
    (b : Flt) (hb : l.getLast? = some b) :
    ∀ x, x ∈ l → x = b ∨ Flt.le x b = true := by
  induction l with
  | nil => intro x hx; exact absurd hx (List.not_mem_nil x)
  | cons a l ih =>
    intro x hx
    rw [List.pairwise_cons] at hl
    cases l with
    | nil =>
      simp only [List.getLast?_singleton, Option.some.injEq] at hb
      simp only [List.mem_singleton] at hx
      exact Or.inl (hx.trans hb)
    | cons c l =>
      have hb2 : (c :: l).getLast? = some b := by
        rw [List.getLast?_cons_cons] at hb
        exact hb
      rcases List.mem_cons.1 hx with h | h
      · subst h
        exact Or.inr (hl.1 b (List.mem_of_getLast?_eq_some hb2))
      · exact ih hl.2 hb2 x h

theorem num_ef_eq : num_ef = 52 := by decide

theorem select_col_lt (inp : CalibInput) (row : Nat) (lam : Flt) (cols : List Nat)
    (hcols : ∀ c, c ∈ cols → c < num_ef) : select_col inp row lam cols < num_ef := by
  induction cols with
  | nil =>
    rw [select_col, num_ef_eq]
    decide
  | cons c cols ih =>
    rw [select_col]
    split_ifs
    · exact hcols c (List.mem_cons_self c cols)
    · exact ih (fun c2 hc2 => hcols c2 (List.mem_cons_of_mem c hc2))

theorem selected_col_lt (inp : CalibInput) (row : Nat) (lam : Flt) :
    selected_col inp row lam < num_ef :=
  select_col_lt inp row lam (List.range num_ef) (fun _ hc => List.mem_range.1 hc)

/-- With one calibration query whose FNR is 0 in every column, the corrected risk is
`(0 + 1) / (1 + 1)` at every candidate. -/
theorem expected_risk_single_zero (inp : CalibInput) (hn : inp.nq_calib = 1)
    (hfnr : ∀ col, col < num_ef →
      calculate_fnr (all_preds_list inp 0 col) (gt_row inp 0) inp.k = Flt.fin 0)
    (lam : Flt) : expected_risk inp lam = Flt.fin (1 / 2) := by
  have h0 : row_fnr inp lam 0 = Flt.fin 0 := hfnr _ (selected_col_lt inp 0 lam)
  have hr : List.range 1 = [0] := rfl
  simp only [expected_risk, empirical_risk_sum, hn, hr, List.foldl_cons,
    List.foldl_nil, h0, fadd_fin, Flt.ofNat, B]
  rw [fdiv_fin _ _ (by norm_num), fmul_fin, fadd_fin, fdiv_fin _ _ (by norm_num)]
  norm_num

theorem calculate_fnr_exact (preds gt : List Int) (k : Nat) (hk : 1 ≤ k) :
    calculate_fnr preds gt k
      = Flt.fin (1 - ((intersection_size preds (gt.take k) (List.range k) : Int) : ℚ)
          / (k : ℚ)) := by
  have hk0 : (k : ℚ) ≠ 0 := by
    have : 0 < k := hk
    exact_mod_cast this.ne'
  simp only [calculate_fnr, Flt.ofInt, Flt.ofNat]
  rw [fdiv_fin _ _ hk0, fsub_fin]

theorem foldl_add_fin (f : Nat → ℚ) (L : List Nat) :
    ∀ a : ℚ, L.foldl (fun sum row => Flt.add sum (Flt.fin (f row))) (Flt.fin a)
      = Flt.fin (a + (L.map f).sum) := by
  induction L with
  | nil => intro a; simp
  | cons x L ih =>
    intro a
    rw [List.foldl_cons, fadd_fin, ih]
    simp [add_assoc]

theorem nonconf_not_finite (inp : CalibInput) (row col : Nat)
    (hdeg : global_max_dist inp = global_min_dist inp) (x : ℚ) :
    nonconf_matrix inp row col ≠ Flt.fin x := by
  unfold nonconf_matrix
  rw [hdeg]
  cases global_min_dist inp <;>
    cases raw_score inp row (efSearch_values.getD col 0) <;>
    simp [Flt.sub, Flt.neg, Flt.add, Flt.div]
  split_ifs <;> simp

/-! ## The adaptive search: claims -/

/-- C1. For a non-empty schedule, an artifact with `min_dist < max_dist` and a query `q < nq`,
`search_hnsw_conann_batch` leaves in `ef_used[q]` the schedule value at the position `p*` of
the specification (the first position whose clamped, regularized score is at most
`lambda_hat`, or the last position), and in the output rows of `q` the labels and distances
the index returned for `q` at that effort. -/
theorem search_resolves_at_first_qualifying (index : IndexHNSWFlat) (nq : Nat)
    (queries : List (List Flt)) (k : Nat) (params : ConannCalibParams)
    (final_labels : Nat → List Int) (final_distances : Nat → List Flt) (ef_used : List Int)
    (hne : params.ef_schedule ≠ [])
    (_hrange : Flt.lt params.min_dist params.max_dist = true)
    (q : Nat) (hq : q < nq) :
    (search_hnsw_conann_batch index nq queries k params final_labels final_distances
        ef_used).ef_used.getD q 0
      = params.ef_schedule.getD (spec_position index queries k params q) 0
    ∧ (search_hnsw_conann_batch index nq queries k params final_labels final_distances
        ef_used).final_labels q
      = (index (queries.getD q []) k
          (params.ef_schedule.getD (spec_position index queries k params q) 0)).labels
    ∧ (search_hnsw_conann_batch index nq queries k params final_labels final_distances
        ef_used).final_distances q
      = (index (queries.getD q []) k
          (params.ef_schedule.getD (spec_position index queries k params q) 0)).distances := by
  obtain ⟨m, hm, hinv, hnil⟩ :=
    search_batch_active_nil index queries k params nq final_labels final_distances ef_used hne
  have hnot : q ∉ active_at index queries k params nq m := by
    rw [hnil]
    exact List.not_mem_nil q
  obtain ⟨j, hj, hmj, hrj, h1, h2, h3⟩ := hinv.resolved q hq hnot
  have hpos : spec_position index queries k params q = j := by
    apply first_qualifying_eq _ _ _ _ (Nat.lt_of_lt_of_le hj hm)
    · exact (resolves_at_true_iff index queries k params j q).1 hrj
    · intro i hi
      have := ((mem_active_at_iff index queries k params nq j q).1 hmj).2 i hi
      exact ((resolves_at_false_iff index queries k params i q).1 this).1
  rw [hpos]
  exact ⟨h3, h1, h2⟩

/-- C1, at a concrete input: with the schedule 1, 21 and threshold 1/2, a query whose score
is 1 at effort 1 and 0 at effort 21 resolves at the second position. -/
theorem search_resolves_at_first_qualifying_witness :
    demo_params.ef_schedule ≠ []
    ∧ Flt.lt demo_params.min_dist demo_params.max_dist = true
    ∧ 0 < 1
    ∧ ((search_hnsw_conann_batch demo_index 1 [[]] 1 demo_params (fun _ => []) (fun _ => [])
          []).ef_used.getD 0 0
        = demo_params.ef_schedule.getD (spec_position demo_index [[]] 1 demo_params 0) 0
      ∧ (search_hnsw_conann_batch demo_index 1 [[]] 1 demo_params (fun _ => []) (fun _ => [])
          []).final_labels 0
        = (demo_index (([[]] : List (List Flt)).getD 0 []) 1
            (demo_params.ef_schedule.getD (spec_position demo_index [[]] 1 demo_params 0)
              0)).labels
      ∧ (search_hnsw_conann_batch demo_index 1 [[]] 1 demo_params (fun _ => []) (fun _ => [])
          []).final_distances 0
        = (demo_index (([[]] : List (List Flt)).getD 0 []) 1
            (demo_params.ef_schedule.getD (spec_position demo_index [[]] 1 demo_params 0)
              0)).distances) :=
  ⟨by decide, by simp [demo_params, Flt.lt], by decide,
    search_resolves_at_first_qualifying demo_index 1 [[]] 1 demo_params (fun _ => [])
      (fun _ => []) [] (by decide) (by simp [demo_params, Flt.lt]) 0 (by decide)⟩

/-- C2. For a non-empty schedule, every query count and every threshold: the loop executes at
most `|schedule|` rounds, every query index below `nq` has exactly one scatter event in the
whole run (one write of its `ef_used` / labels / distances entry, in one round), and the
active list is empty when the loop is left. -/
theorem search_terminates_each_query_once (index : IndexHNSWFlat) (nq : Nat)
    (queries : List (List Flt)) (k : Nat) (params : ConannCalibParams)
    (final_labels : Nat → List Int) (final_distances : Nat → List Flt) (ef_used : List Int)
    (hne : params.ef_schedule ≠ []) :
    (search_hnsw_conann_batch index nq queries k params final_labels final_distances
        ef_used).history.length ≤ params.ef_schedule.length
    ∧ (∀ q, q < nq → ∃ p, p < params.ef_schedule.length
        ∧ (search_hnsw_conann_batch index nq queries k params final_labels final_distances
            ef_used).writes.filter (fun w => decide (w.2 = q)) = [(p, q)])
    ∧ (search_hnsw_conann_batch index nq queries k params final_labels final_distances
        ef_used).active_indices = [] := by
  obtain ⟨m, hm, hinv, hnil⟩ :=
    search_batch_active_nil index queries k params nq final_labels final_distances ef_used hne
  refine ⟨?_, ?_, ?_⟩
  · rw [hinv.history, List.length_map, List.length_range]
    exact hm
  · intro q hq
    have hnot : q ∉ active_at index queries k params nq m := by
      rw [hnil]
      exact List.not_mem_nil q
    obtain ⟨j, hj, hmj, hrj, _⟩ := hinv.resolved q hq hnot
    refine ⟨j, Nat.lt_of_lt_of_le hj hm, ?_⟩
    rw [hinv.writes]
    exact writes_filter_single index queries k params nq q j m hj hmj hrj
  · rw [hinv.active]
    exact hnil

/-- C2, at a concrete input: three queries on the two-step schedule. -/
theorem search_terminates_each_query_once_witness :
    demo_params.ef_schedule ≠ []
    ∧ ((search_hnsw_conann_batch demo_index 3 [[], [], []] 1 demo_params (fun _ => [])
          (fun _ => []) []).history.length ≤ demo_params.ef_schedule.length
      ∧ (∀ q, q < 3 → ∃ p, p < demo_params.ef_schedule.length
          ∧ (search_hnsw_conann_batch demo_index 3 [[], [], []] 1 demo_params (fun _ => [])
              (fun _ => []) []).writes.filter (fun w => decide (w.2 = q)) = [(p, q)])
      ∧ (search_hnsw_conann_batch demo_index 3 [[], [], []] 1 demo_params (fun _ => [])
          (fun _ => []) []).active_indices = []) :=
  ⟨by decide,
    search_terminates_each_query_once demo_index 3 [[], [], []] 1 demo_params (fun _ => [])
      (fun _ => []) [] (by decide)⟩

/-- C3. The active list starts as `0, .., nq-1`; in the sequence of active lists (the list at
the entry of every executed round, followed by the list the loop is left with) every list is
a duplicate-free, order-preserving sublist of the one before; and a query scattered in round
`p` is in no active list after round `p`. -/
theorem active_set_shrinks_without_reentry (index : IndexHNSWFlat) (nq : Nat)
    (queries : List (List Flt)) (k : Nat) (params : ConannCalibParams)
    (final_labels : Nat → List Int) (final_distances : Nat → List Flt) (ef_used : List Int) :
    ((search_hnsw_conann_batch index nq queries k params final_labels final_distances
          ef_used).history
        ++ [(search_hnsw_conann_batch index nq queries k params final_labels final_distances
          ef_used).active_indices]).head? = some (List.range nq)
    ∧ List.Chain' (fun cur next => next.Sublist cur ∧ next.Nodup)
        ((search_hnsw_conann_batch index nq queries k params final_labels final_distances
            ef_used).history
          ++ [(search_hnsw_conann_batch index nq queries k params final_labels final_distances
            ef_used).active_indices])
    ∧ ∀ p q, (p, q) ∈ (search_hnsw_conann_batch index nq queries k params final_labels
          final_distances ef_used).writes →
        ∀ i l, p < i →
          ((search_hnsw_conann_batch index nq queries k params final_labels final_distances
              ef_used).history
            ++ [(search_hnsw_conann_batch index nq queries k params final_labels
              final_distances ef_used).active_indices])[i]? = some l →
          q ∉ l := by
  obtain ⟨m, _, hinv, _⟩ :=
    search_batch_inv index queries k params nq final_labels final_distances ef_used
  have hlists :
      (search_hnsw_conann_batch index nq queries k params final_labels final_distances
          ef_used).history
        ++ [(search_hnsw_conann_batch index nq queries k params final_labels final_distances
          ef_used).active_indices]
      = (List.range (m + 1)).map (active_at index queries k params nq) := by
    rw [hinv.history, hinv.active, List.range_succ, List.map_append]
    rfl
  rw [hlists]
  refine ⟨?_, ?_, ?_⟩
  · rw [List.range_succ_eq_map]
    rfl
  · rw [List.chain'_map, List.chain'_range_succ]
    intro i _
    exact ⟨List.filter_sublist _, nodup_active_at index queries k params nq (i + 1)⟩
  · intro p q hw i l hpi hl
    rw [hinv.writes, List.mem_flatMap] at hw
    obtain ⟨r, _, hr⟩ := hw
    obtain ⟨h1, _, h3⟩ := mem_round_writes index queries k params nq r (p, q) hr
    have hrp : p = r := h1
    subst hrp
    rw [List.getElem?_map] at hl
    cases hgi : (List.range (m + 1))[i]? with
    | none =>
      rw [hgi] at hl
      exact Option.noConfusion hl
    | some i2 =>
      rw [hgi] at hl
      have hi2 : i2 = i := by
        have hlt : i < (List.range (m + 1)).length := by
          by_contra hge
          rw [List.getElem?_eq_none (Nat.le_of_not_lt hge)] at hgi
          exact Option.noConfusion hgi
        rw [List.getElem?_eq_getElem hlt, List.getElem_range] at hgi
        exact (Option.some.inj hgi).symm
      subst hi2
      have hl2 : l = active_at index queries k params nq i2 := (Option.some.inj hl).symm
      rw [hl2]
      exact not_mem_active_at_after index queries k params nq q p i2 hpi h3

theorem zero_mem_lambda_cands : Flt.fin 0 ∈ lambda_cands := by
  simp only [lambda_cands, List.mem_map, List.mem_range]
  exact ⟨0, by norm_num, by norm_num⟩

theorem top_mem_lambda_cands : Flt.fin (3 / 2) ∈ lambda_cands := by
  simp only [lambda_cands, List.mem_map, List.mem_range]
  exact ⟨300, by norm_num, by norm_num⟩

theorem lambda_hat_greatest_valid (inp : CalibInput) (alpha : Flt) (lam0 : Flt)
    (h0 : lam0 ∈ lambda_cands) (hv : Flt.le (expected_risk inp lam0) alpha = true) :
    (calibrate inp alpha).artifact.lambda_hat ∈ lambda_cands
    ∧ Flt.le (expected_risk inp (calibrate inp alpha).artifact.lambda_hat) alpha = true
    ∧ ∀ lam, lam ∈ lambda_cands → Flt.le (expected_risk inp lam) alpha = true →
        Flt.le lam (calibrate inp alpha).artifact.lambda_hat = true := by
  rw [calibrate_lambda_hat]
  have hmem0 : lam0 ∈ lambda_cands.filter (fun lam => Flt.le (expected_risk inp lam) alpha) :=
    List.mem_filter.2 ⟨h0, hv⟩
  cases hlast : (lambda_cands.filter
      (fun lam => Flt.le (expected_risk inp lam) alpha)).getLast? with
  | none =>
    rw [List.getLast?_eq_none_iff] at hlast
    rw [hlast] at hmem0
    exact absurd hmem0 (List.not_mem_nil lam0)
  | some b =>
    have hb := List.mem_filter.1 (List.mem_of_getLast?_eq_some hlast)
    refine ⟨hb.1, hb.2, ?_⟩
    intro lam hl hvl
    have hpw : (lambda_cands.filter
        (fun lam => Flt.le (expected_risk inp lam) alpha)).Pairwise
        (fun a b => Flt.le a b = true) :=
      List.Pairwise.sublist (List.filter_sublist lambda_cands) lambda_cands_pairwise
    rcases getLast_is_greatest _ hpw b hlast lam (List.mem_filter.2 ⟨hl, hvl⟩) with h | h
    · obtain ⟨x, hx, _⟩ := mem_lambda_cands lam hl
      rw [← h, hx]
      exact fle_fin_self x
    · exact h

theorem lambda_hat_sentinel (inp : CalibInput) (alpha : Flt)
    (h : ∀ lam, lam ∈ lambda_cands → Flt.le (expected_risk inp lam) alpha = false) :
    (calibrate inp alpha).artifact.lambda_hat = Flt.fin (-1) := by
  rw [calibrate_lambda_hat]
  have hnil : lambda_cands.filter (fun lam => Flt.le (expected_risk inp lam) alpha) = [] := by
    rw [List.filter_eq_nil_iff]
    intro lam hl
    rw [h lam hl]
    exact Bool.false_ne_true
  rw [hnil]
  rfl

theorem mem_csv_iff (inp : CalibInput) (alpha : Flt) (row : Flt × Flt) :
    row ∈ (calibrate inp alpha).csv
      ↔ ∃ lam, lam ∈ lambda_cands ∧ row = (lam, expected_risk inp lam) := by
  rw [calibrate_csv, List.mem_map]
  constructor
  · rintro ⟨lam, hl, rfl⟩
    exact ⟨lam, hl, rfl⟩
  · rintro ⟨lam, hl, rfl⟩
    exact ⟨lam, hl, rfl⟩

/-! ## Calibration: facts about the concrete inputs -/

theorem demo_calib_fnr_zero (col : Nat) :
    calculate_fnr (all_preds_list demo_calib 0 col) (gt_row demo_calib 0) demo_calib.k
      = Flt.fin 0 := by
  have hr : List.range 1 = [0] := rfl
  have h7 : to_int32 7 = 7 := by decide
  simp [calculate_fnr, all_preds_list, calib_row, demo_calib, demo_index, gt_row,
    intersection_size, hr, h7, Flt.ofInt, Flt.ofNat, fdiv_fin, fsub_fin]

theorem demo_calib_risk (lam : Flt) : expected_risk demo_calib lam = Flt.fin (1 / 2) :=
  expected_risk_single_zero demo_calib rfl (fun col _ => demo_calib_fnr_zero col) lam

theorem lambda_cands_getLast : lambda_cands.getLast? = some (Flt.fin (3 / 2)) := by
  have h : lambda_cands
      = (List.range 300).map (fun i : Nat => Flt.fin ((i : ℚ) / 200)) ++ [Flt.fin (3 / 2)] := by
    rw [lambda_cands, List.range_succ, List.map_append]
    norm_num
  rw [h, List.getLast?_append]
  rfl

/-- With the same corrected risk `r` at every candidate: when `r <= alpha` every candidate is
valid and the saved threshold is the candidate of the last csv row, the largest one and not
the candidate 0; otherwise no candidate is valid and the threshold keeps the value -1. -/
theorem lambda_hat_of_constant_risk (inp : CalibInput) (alpha r : Flt)
    (hrisk : ∀ lam, expected_risk inp lam = r) :
    (Flt.le r alpha = true →
        (calibrate inp alpha).csv.getLast?.map Prod.fst
          = some (calibrate inp alpha).artifact.lambda_hat
        ∧ (calibrate inp alpha).artifact.lambda_hat ≠ Flt.fin 0
        ∧ ∀ row, row ∈ (calibrate inp alpha).csv →
            Flt.le row.1 (calibrate inp alpha).artifact.lambda_hat = true)
    ∧ (Flt.le r alpha = false → (calibrate inp alpha).artifact.lambda_hat = Flt.fin (-1)) := by
  constructor
  · intro hv
    have hall : lambda_cands.filter (fun lam => Flt.le (expected_risk inp lam) alpha)
        = lambda_cands := by
      rw [List.filter_eq_self]
      intro lam _
      rw [hrisk]
      exact hv
    have hlam : (calibrate inp alpha).artifact.lambda_hat = Flt.fin (3 / 2) := by
      rw [calibrate_lambda_hat, hall, lambda_cands_getLast]
      rfl
    rw [hlam]
    refine ⟨?_, ?_, ?_⟩
    · rw [calibrate_csv, List.getLast?_map, lambda_cands_getLast]
      rfl
    · intro hc
      have := Flt.fin.inj hc
      norm_num at this
    · intro row hrow
      obtain ⟨lam, hl, rfl⟩ := (mem_csv_iff inp alpha row).1 hrow
      obtain ⟨x, hx, _, hx2⟩ := mem_lambda_cands lam hl
      show Flt.le lam (Flt.fin (3 / 2)) = true
      rw [hx, fle_fin, decide_eq_true_eq]
      exact hx2
  · intro hv
    apply lambda_hat_sentinel
    intro lam _
    rw [hrisk]
    exact hv

theorem track_bounds_one (acc : Flt × Flt)
    (hacc : acc = (Flt.FLT_MAX, Flt.fin 0) ∨ acc = (Flt.fin 1, Flt.fin 1)) :
    track_bounds acc (Flt.fin 1) = (Flt.fin 1, Flt.fin 1) := by
  rcases hacc with h | h
  · rw [h]
    simp only [track_bounds, Flt.FLT_MAX, flt_fin]
    norm_num
  · rw [h]
    simp only [track_bounds, flt_fin]
    norm_num

theorem foldl_track_one {α : Type} (f : Flt × Flt → α → Flt × Flt)
    (hf : ∀ acc x, (acc = (Flt.FLT_MAX, Flt.fin 0) ∨ acc = (Flt.fin 1, Flt.fin 1)) →
      f acc x = (Flt.fin 1, Flt.fin 1))
    (L : List α) (hL : L ≠ []) (acc : Flt × Flt)
    (hacc : acc = (Flt.FLT_MAX, Flt.fin 0) ∨ acc = (Flt.fin 1, Flt.fin 1)) :
    L.foldl f acc = (Flt.fin 1, Flt.fin 1) := by
  induction L generalizing acc with
  | nil => exact absurd rfl hL
  | cons x L ih =>
    rw [List.foldl_cons]
    cases L with
    | nil => exact hf acc x hacc
    | cons y L => exact ih (List.cons_ne_nil y L) _ (Or.inr (hf acc x hacc))

theorem flat_calib_bounds : global_bounds flat_calib = (Flt.fin 1, Flt.fin 1) := by
  unfold global_bounds
  apply foldl_track_one
  · intro acc ef hacc
    apply foldl_track_one _ _ _ (by decide) acc hacc
    intro acc2 row hacc2
    have hraw : raw_score flat_calib row ef = Flt.fin 1 := by
      simp [raw_score, calib_row, flat_calib, flat_index, dist_k_of]
    rw [hraw]
    exact track_bounds_one acc2 hacc2
  · decide
  · exact Or.inl rfl

theorem flat_calib_degenerate : global_max_dist flat_calib = global_min_dist flat_calib := by
  simp only [global_max_dist, global_min_dist, flat_calib_bounds]

/-! ## Calibration: claims -/

/-- C4. When the sweep records at least one candidate whose corrected risk is at most `alpha`
(a row of the csv log, which holds every swept candidate with its corrected risk), the saved
threshold `best_lambda` is such a candidate and every other such candidate is at most it: it
is the largest swept candidate whose corrected risk is at most `alpha`. -/
theorem sweep_selects_largest_valid (inp : CalibInput) (alpha : Flt)
    (h : ∃ row, row ∈ (calibrate inp alpha).csv ∧ Flt.le row.2 alpha = true) :
    (∃ row, row ∈ (calibrate inp alpha).csv
        ∧ row.1 = (calibrate inp alpha).artifact.lambda_hat ∧ Flt.le row.2 alpha = true)
    ∧ ∀ row, row ∈ (calibrate inp alpha).csv → Flt.le row.2 alpha = true →
        Flt.le row.1 (calibrate inp alpha).artifact.lambda_hat = true := by
  obtain ⟨row0, hrow0, hv0⟩ := h
  obtain ⟨lam0, hl0, rfl⟩ := (mem_csv_iff inp alpha row0).1 hrow0
  obtain ⟨hmem, hvalid, hmax⟩ := lambda_hat_greatest_valid inp alpha lam0 hl0 hv0
  refine ⟨⟨(_, _), (mem_csv_iff inp alpha _).2 ⟨_, hmem, rfl⟩, rfl, hvalid⟩, ?_⟩
  intro row hrow hv
  obtain ⟨lam, hl, rfl⟩ := (mem_csv_iff inp alpha row).1 hrow
  exact hmax lam hl hv

/-- C4, at a concrete input: one query with corrected risk 1/2 everywhere and `alpha = 3/5`;
the candidate 0 is recorded as valid. -/
theorem sweep_selects_largest_valid_witness :
    (∃ row, row ∈ (calibrate demo_calib (Flt.fin (3 / 5))).csv
        ∧ Flt.le row.2 (Flt.fin (3 / 5)) = true)
    ∧ ((∃ row, row ∈ (calibrate demo_calib (Flt.fin (3 / 5))).csv
          ∧ row.1 = (calibrate demo_calib (Flt.fin (3 / 5))).artifact.lambda_hat
          ∧ Flt.le row.2 (Flt.fin (3 / 5)) = true)
      ∧ ∀ row, row ∈ (calibrate demo_calib (Flt.fin (3 / 5))).csv →
          Flt.le row.2 (Flt.fin (3 / 5)) = true →
          Flt.le row.1 (calibrate demo_calib (Flt.fin (3 / 5))).artifact.lambda_hat = true) :=
  have hex : ∃ row, row ∈ (calibrate demo_calib (Flt.fin (3 / 5))).csv
      ∧ Flt.le row.2 (Flt.fin (3 / 5)) = true :=
    ⟨(Flt.fin 0, expected_risk demo_calib (Flt.fin 0)),
      (mem_csv_iff demo_calib _ _).2 ⟨Flt.fin 0, zero_mem_lambda_cands, rfl⟩,
      by rw [demo_calib_risk, fle_fin]; norm_num⟩
  ⟨hex, sweep_selects_largest_valid demo_calib (Flt.fin (3 / 5)) hex⟩

/-- C5. For a fixed calibration set and `alpha1 <= alpha2`, the threshold saved for `alpha1`
is at most the threshold saved for `alpha2`. -/
theorem lambda_hat_monotone_in_alpha (inp : CalibInput) (alpha1 alpha2 : Flt)
    (h : Flt.le alpha1 alpha2 = true) :
    Flt.le (calibrate inp alpha1).artifact.lambda_hat
      (calibrate inp alpha2).artifact.lambda_hat = true := by
  by_cases hex : ∃ lam, lam ∈ lambda_cands ∧ Flt.le (expected_risk inp lam) alpha1 = true
  · obtain ⟨lam0, hl0, hv0⟩ := hex
    obtain ⟨hmem1, hvalid1, _⟩ := lambda_hat_greatest_valid inp alpha1 lam0 hl0 hv0
    have hvalid2 : Flt.le (expected_risk inp (calibrate inp alpha1).artifact.lambda_hat)
        alpha2 = true := fle_trans _ _ _ hvalid1 h
    exact (lambda_hat_greatest_valid inp alpha2 _ hmem1 hvalid2).2.2 _ hmem1 hvalid2
  · have hnone : ∀ lam, lam ∈ lambda_cands →
        Flt.le (expected_risk inp lam) alpha1 = false := by
      intro lam hl
      cases hv : Flt.le (expected_risk inp lam) alpha1
      · rfl
      · exact absurd ⟨lam, hl, hv⟩ hex
    rw [lambda_hat_sentinel inp alpha1 hnone]
    by_cases hex2 : ∃ lam, lam ∈ lambda_cands ∧ Flt.le (expected_risk inp lam) alpha2 = true
    · obtain ⟨lam0, hl0, hv0⟩ := hex2
      obtain ⟨hmem2, _, _⟩ := lambda_hat_greatest_valid inp alpha2 lam0 hl0 hv0
      obtain ⟨x, hx, hx0, _⟩ := mem_lambda_cands _ hmem2
      rw [hx, fle_fin, decide_eq_true_eq]
      linarith
    · have hnone2 : ∀ lam, lam ∈ lambda_cands →
          Flt.le (expected_risk inp lam) alpha2 = false := by
        intro lam hl
        cases hv : Flt.le (expected_risk inp lam) alpha2
        · rfl
        · exact absurd ⟨lam, hl, hv⟩ hex2
      rw [lambda_hat_sentinel inp alpha2 hnone2]
      exact fle_fin_self (-1)

/-- C5, at a concrete input: `alpha` raised from 1/10 to 3/5 on the one-query set. -/
theorem lambda_hat_monotone_in_alpha_witness :
    Flt.le (Flt.fin (1 / 10)) (Flt.fin (3 / 5)) = true
    ∧ Flt.le (calibrate demo_calib (Flt.fin (1 / 10))).artifact.lambda_hat
        (calibrate demo_calib (Flt.fin (3 / 5))).artifact.lambda_hat = true :=
  ⟨by rw [fle_fin]; norm_num,
    lambda_hat_monotone_in_alpha demo_calib (Flt.fin (1 / 10)) (Flt.fin (3 / 5))
      (by rw [fle_fin]; norm_num)⟩

/-- C6 as stated fails: on the one-query set with `alpha = 0` every recorded corrected risk
is 1/2, no candidate is valid, and `main` still reaches `save_conann_params`, with the
threshold -1 that `best_lambda` was initialised to. -/
theorem infeasible_alpha_not_reported :
    (∀ row, row ∈ (calibrate demo_calib (Flt.fin 0)).csv → Flt.le row.2 (Flt.fin 0) = false)
    ∧ calibrate_main (fun _ => demo_index) (some (1, Flt.fin 0)) demo_files
        = Except.ok (calibrate demo_calib (Flt.fin 0))
    ∧ (calibrate demo_calib (Flt.fin 0)).artifact.lambda_hat = Flt.fin (-1) := by
  have hrisk : ∀ lam, lam ∈ lambda_cands →
      Flt.le (expected_risk demo_calib lam) (Flt.fin 0) = false := by
    intro lam _
    rw [demo_calib_risk, fle_fin]
    norm_num
  refine ⟨?_, rfl, lambda_hat_sentinel demo_calib (Flt.fin 0) hrisk⟩
  intro row hrow
  obtain ⟨lam, hl, rfl⟩ := (mem_csv_iff demo_calib _ row).1 hrow
  exact hrisk lam hl

/-- C6, amended. When the three files are loaded and no swept candidate has a corrected risk
that is at most `alpha`, `main` reports no failure: it reaches `save_conann_params` and the
artifact carries the threshold -1, the initial value of `best_lambda`. -/
theorem infeasible_alpha_saves_initial_value (build : List (List Flt) → IndexHNSWFlat)
    (k : Nat) (alpha : Flt) (xb calib_queries : List (List Flt)) (calib_gt : List Int)
    (d_gt : Nat)
    (h : ∀ row, row ∈ (calibrate
          { k := k, index := build xb, calib_queries := calib_queries, calib_gt := calib_gt,
            d_gt := d_gt } alpha).csv →
        Flt.le row.2 alpha = false) :
    calibrate_main build (some (k, alpha))
        { xb := some xb, calib_queries := some calib_queries, calib_gt := some (calib_gt, d_gt) }
      = Except.ok (calibrate
          { k := k, index := build xb, calib_queries := calib_queries, calib_gt := calib_gt,
            d_gt := d_gt } alpha)
    ∧ (calibrate
          { k := k, index := build xb, calib_queries := calib_queries, calib_gt := calib_gt,
            d_gt := d_gt } alpha).artifact.lambda_hat = Flt.fin (-1) := by
  refine ⟨rfl, lambda_hat_sentinel _ alpha ?_⟩
  intro lam hl
  exact h (lam, expected_risk _ lam) ((mem_csv_iff _ alpha _).2 ⟨lam, hl, rfl⟩)

/-- C6 amended, at a concrete input: the one-query set with `alpha = 0`. -/
theorem infeasible_alpha_saves_initial_value_witness :
    (∀ row, row ∈ (calibrate
          { k := 1, index := demo_index, calib_queries := [[]], calib_gt := [7],
            d_gt := 1 } (Flt.fin 0)).csv →
        Flt.le row.2 (Flt.fin 0) = false)
    ∧ (calibrate_main (fun _ => demo_index) (some (1, Flt.fin 0))
          { xb := some [], calib_queries := some [[]], calib_gt := some ([7], 1) }
        = Except.ok (calibrate
            { k := 1, index := demo_index, calib_queries := [[]], calib_gt := [7],
              d_gt := 1 } (Flt.fin 0))
      ∧ (calibrate
            { k := 1, index := demo_index, calib_queries := [[]], calib_gt := [7],
              d_gt := 1 } (Flt.fin 0)).artifact.lambda_hat = Flt.fin (-1)) :=
  have hnone : ∀ row, row ∈ (calibrate
        { k := 1, index := demo_index, calib_queries := [[]], calib_gt := [7],
          d_gt := 1 } (Flt.fin 0)).csv →
      Flt.le row.2 (Flt.fin 0) = false := by
    intro row hrow
    obtain ⟨lam, _, rfl⟩ := (mem_csv_iff demo_calib _ row).1 hrow
    have hr : expected_risk demo_calib lam = Flt.fin (1 / 2) := demo_calib_risk lam
    show Flt.le (expected_risk demo_calib lam) (Flt.fin 0) = false
    rw [hr, fle_fin]
    norm_num
  ⟨hnone,
    infeasible_alpha_saves_initial_value (fun _ => demo_index) 1 (Flt.fin 0) [] [[]] [7] 1
      hnone⟩

/-- C7 as stated fails: on the one-query set whose k-th neighbour distance is 1 at every
effort, the global maximum equals the global minimum and `main` still reaches
`save_conann_params`, with both bounds equal to 1 in the artifact. -/
theorem degenerate_range_not_rejected :
    global_max_dist flat_calib = global_min_dist flat_calib
    ∧ calibrate_main (fun _ => flat_index) (some (1, Flt.fin (3 / 5))) demo_files
        = Except.ok (calibrate flat_calib (Flt.fin (3 / 5)))
    ∧ (calibrate flat_calib (Flt.fin (3 / 5))).artifact.min_dist = Flt.fin 1
    ∧ (calibrate flat_calib (Flt.fin (3 / 5))).artifact.max_dist = Flt.fin 1 := by
  refine ⟨flat_calib_degenerate, rfl, ?_, ?_⟩
  · rw [calibrate_min_dist]
    simp only [global_min_dist, flat_calib_bounds]
  · rw [calibrate_max_dist]
    simp only [global_max_dist, flat_calib_bounds]

/-- C7, amended. When the three files are loaded and the global maximum raw score equals the
global minimum, `main` does not abort: every entry `(raw - min) / (max - min)` is evaluated
with a zero (or undefined) divisor, so that no normalized entry is a finite number, and the
run still reaches `save_conann_params`, with `max_dist` equal to `min_dist` in the
artifact. -/
theorem degenerate_range_still_saves (build : List (List Flt) → IndexHNSWFlat)
    (k : Nat) (alpha : Flt) (xb calib_queries : List (List Flt)) (calib_gt : List Int)
    (d_gt : Nat)
    (hdeg : global_max_dist
        { k := k, index := build xb, calib_queries := calib_queries, calib_gt := calib_gt,
          d_gt := d_gt }
      = global_min_dist
        { k := k, index := build xb, calib_queries := calib_queries, calib_gt := calib_gt,
          d_gt := d_gt }) :
    calibrate_main build (some (k, alpha))
        { xb := some xb, calib_queries := some calib_queries, calib_gt := some (calib_gt, d_gt) }
      = Except.ok (calibrate
          { k := k, index := build xb, calib_queries := calib_queries, calib_gt := calib_gt,
            d_gt := d_gt } alpha)
    ∧ (calibrate
          { k := k, index := build xb, calib_queries := calib_queries, calib_gt := calib_gt,
            d_gt := d_gt } alpha).artifact.max_dist
      = (calibrate
          { k := k, index := build xb, calib_queries := calib_queries, calib_gt := calib_gt,
            d_gt := d_gt } alpha).artifact.min_dist
    ∧ ∀ row col x, nonconf_matrix
          { k := k, index := build xb, calib_queries := calib_queries, calib_gt := calib_gt,
            d_gt := d_gt } row col ≠ Flt.fin x :=
  ⟨rfl, by rw [calibrate_max_dist, calibrate_min_dist, hdeg],
    fun row col x => nonconf_not_finite _ row col hdeg x⟩

/-- C7 amended, at a concrete input: the one-query set with constant distance 1. -/
theorem degenerate_range_still_saves_witness :
    global_max_dist
        { k := 1, index := flat_index, calib_queries := [[]], calib_gt := [7], d_gt := 1 }
      = global_min_dist
        { k := 1, index := flat_index, calib_queries := [[]], calib_gt := [7], d_gt := 1 }
    ∧ (calibrate_main (fun _ => flat_index) (some (1, Flt.fin (3 / 5)))
          { xb := some [], calib_queries := some [[]], calib_gt := some ([7], 1) }
        = Except.ok (calibrate
            { k := 1, index := flat_index, calib_queries := [[]], calib_gt := [7],
              d_gt := 1 } (Flt.fin (3 / 5)))
      ∧ (calibrate
            { k := 1, index := flat_index, calib_queries := [[]], calib_gt := [7],
              d_gt := 1 } (Flt.fin (3 / 5))).artifact.max_dist
        = (calibrate
            { k := 1, index := flat_index, calib_queries := [[]], calib_gt := [7],
              d_gt := 1 } (Flt.fin (3 / 5))).artifact.min_dist
      ∧ ∀ row col x, nonconf_matrix
            { k := 1, index := flat_index, calib_queries := [[]], calib_gt := [7],
              d_gt := 1 } row col ≠ Flt.fin x) :=
  ⟨flat_calib_degenerate,
    degenerate_range_still_saves (fun _ => flat_index) 1 (Flt.fin (3 / 5)) [] [[]] [7] 1
      flat_calib_degenerate⟩

/-- C8 as stated fails: one calibration query with FNR 0 in every column and `alpha = 3/4`
gives a threshold that is the candidate of the last csv row, the largest swept candidate, and
not the smallest candidate 0. -/
theorem single_query_zero_fnr_not_zero :
    demo_calib.nq_calib = 1
    ∧ (∀ col, calculate_fnr (all_preds_list demo_calib 0 col) (gt_row demo_calib 0)
        demo_calib.k = Flt.fin 0)
    ∧ (calibrate demo_calib (Flt.fin (3 / 4))).csv.getLast?.map Prod.fst
        = some (calibrate demo_calib (Flt.fin (3 / 4))).artifact.lambda_hat
    ∧ (calibrate demo_calib (Flt.fin (3 / 4))).artifact.lambda_hat ≠ Flt.fin 0 := by
  have hv : Flt.le (Flt.fin (1 / 2)) (Flt.fin (3 / 4)) = true := by
    rw [fle_fin]
    norm_num
  have h := (lambda_hat_of_constant_risk demo_calib (Flt.fin (3 / 4)) (Flt.fin (1 / 2))
    demo_calib_risk).1 hv
  exact ⟨rfl, demo_calib_fnr_zero, h.1, h.2.1⟩

/-- C8, amended. With a single calibration query whose FNR is 0 in every column, the
corrected risk is `(0 + 1) / (1 + 1) = 1/2` at every candidate; so for every `alpha` with
`1/2 <= alpha` the saved threshold is the largest swept candidate, the one of the last csv
row and not the candidate 0, and for every other `alpha` no candidate is valid and the
threshold keeps its initial value -1. -/
theorem single_query_zero_fnr_lambda_hat (inp : CalibInput) (alpha : Flt)
    (hn : inp.nq_calib = 1)
    (hfnr : ∀ col, col < num_ef →
      calculate_fnr (all_preds_list inp 0 col) (gt_row inp 0) inp.k = Flt.fin 0) :
    (∀ lam, expected_risk inp lam = Flt.fin (1 / 2))
    ∧ (Flt.le (Flt.fin (1 / 2)) alpha = true →
        (calibrate inp alpha).csv.getLast?.map Prod.fst
          = some (calibrate inp alpha).artifact.lambda_hat
        ∧ (calibrate inp alpha).artifact.lambda_hat ≠ Flt.fin 0
        ∧ ∀ row, row ∈ (calibrate inp alpha).csv →
            Flt.le row.1 (calibrate inp alpha).artifact.lambda_hat = true)
    ∧ (Flt.le (Flt.fin (1 / 2)) alpha = false →
        (calibrate inp alpha).artifact.lambda_hat = Flt.fin (-1)) :=
  ⟨expected_risk_single_zero inp hn hfnr,
    lambda_hat_of_constant_risk inp alpha (Flt.fin (1 / 2))
      (expected_risk_single_zero inp hn hfnr)⟩

/-- C8 amended, at a concrete input: the one-query set with `alpha = 3/4`. -/
theorem single_query_zero_fnr_lambda_hat_witness :
    demo_calib.nq_calib = 1
    ∧ (∀ col, col < num_ef →
        calculate_fnr (all_preds_list demo_calib 0 col) (gt_row demo_calib 0) demo_calib.k
          = Flt.fin 0)
    ∧ Flt.le (Flt.fin (1 / 2)) (Flt.fin (3 / 4)) = true
    ∧ ((calibrate demo_calib (Flt.fin (3 / 4))).csv.getLast?.map Prod.fst
          = some (calibrate demo_calib (Flt.fin (3 / 4))).artifact.lambda_hat
        ∧ (calibrate demo_calib (Flt.fin (3 / 4))).artifact.lambda_hat ≠ Flt.fin 0
        ∧ ∀ row, row ∈ (calibrate demo_calib (Flt.fin (3 / 4))).csv →
            Flt.le row.1 (calibrate demo_calib (Flt.fin (3 / 4))).artifact.lambda_hat = true) :=
  have hv : Flt.le (Flt.fin (1 / 2)) (Flt.fin (3 / 4)) = true := by
    rw [fle_fin]
    norm_num
  ⟨rfl, fun col _ => demo_calib_fnr_zero col, hv,
    (single_query_zero_fnr_lambda_hat demo_calib (Flt.fin (3 / 4)) rfl
      (fun col _ => demo_calib_fnr_zero col)).2.1 hv⟩

/-- C10. For a calibration set of `n >= 1` queries (and `k >= 1`), every per-query FNR is the
exact rational `1 - |intersection| / k`, and the corrected risk of every candidate is
`(n * empirical_risk + 1) / (n + 1)` with `empirical_risk` the mean of the `n` FNRs of the
selected columns, which is `(sum of the n FNRs + 1) / (n + 1)`. -/
theorem corrected_risk_exact (inp : CalibInput) (lambda_cand : Flt)
    (hn : 1 ≤ inp.nq_calib) (hk : 1 ≤ inp.k) :
    B = Flt.fin 1
    ∧ (∀ row, row_fnr inp lambda_cand row = Flt.fin (row_fnr_exact inp lambda_cand row))
    ∧ expected_risk inp lambda_cand
      = Flt.fin (((inp.nq_calib : ℚ)
            * (((List.range inp.nq_calib).map (row_fnr_exact inp lambda_cand)).sum
                / (inp.nq_calib : ℚ)) + 1)
          / ((inp.nq_calib : ℚ) + 1))
    ∧ expected_risk inp lambda_cand
      = Flt.fin ((((List.range inp.nq_calib).map (row_fnr_exact inp lambda_cand)).sum + 1)
          / ((inp.nq_calib : ℚ) + 1)) := by
  have hrow : ∀ row, row_fnr inp lambda_cand row
      = Flt.fin (row_fnr_exact inp lambda_cand row) := by
    intro row
    rw [row_fnr, calculate_fnr_exact _ _ _ hk, row_fnr_exact]
  have hn0 : (inp.nq_calib : ℚ) ≠ 0 := by
    have : 0 < inp.nq_calib := hn
    exact_mod_cast this.ne'
  have hn1 : ((inp.nq_calib + 1 : Nat) : ℚ) ≠ 0 := by
    exact_mod_cast Nat.succ_ne_zero inp.nq_calib
  have hsum : empirical_risk_sum inp lambda_cand
      = Flt.fin (((List.range inp.nq_calib).map (row_fnr_exact inp lambda_cand)).sum) := by
    unfold empirical_risk_sum
    simp only [hrow]
    rw [foldl_add_fin, zero_add]
  have hrisk : expected_risk inp lambda_cand
      = Flt.fin (((inp.nq_calib : ℚ)
            * (((List.range inp.nq_calib).map (row_fnr_exact inp lambda_cand)).sum
                / (inp.nq_calib : ℚ)) + 1)
          / ((inp.nq_calib : ℚ) + 1)) := by
    unfold expected_risk
    rw [hsum]
    simp only [Flt.ofNat, B]
    rw [fdiv_fin _ _ hn0, fmul_fin, fadd_fin, fdiv_fin _ _ hn1]
    push_cast
    rfl
  refine ⟨rfl, hrow, hrisk, ?_⟩
  rw [hrisk, mul_div_cancel₀ _ hn0]

/-- C10, at a concrete input: the one-query set at the candidate 0. -/
theorem corrected_risk_exact_witness :
    1 ≤ demo_calib.nq_calib ∧ 1 ≤ demo_calib.k
    ∧ (B = Flt.fin 1
      ∧ (∀ row, row_fnr demo_calib (Flt.fin 0) row
          = Flt.fin (row_fnr_exact demo_calib (Flt.fin 0) row))
      ∧ expected_risk demo_calib (Flt.fin 0)
        = Flt.fin (((demo_calib.nq_calib : ℚ)
              * (((List.range demo_calib.nq_calib).map
                    (row_fnr_exact demo_calib (Flt.fin 0))).sum
                  / (demo_calib.nq_calib : ℚ)) + 1)
            / ((demo_calib.nq_calib : ℚ) + 1))
      ∧ expected_risk demo_calib (Flt.fin 0)
        = Flt.fin ((((List.range demo_calib.nq_calib).map
                (row_fnr_exact demo_calib (Flt.fin 0))).sum + 1)
            / ((demo_calib.nq_calib : ℚ) + 1))) :=
  ⟨by decide, by decide, corrected_risk_exact demo_calib (Flt.fin 0) (by decide) (by decide)⟩

/-! ## The regularizer, the effort bound and the size of the active set: claims -/

/-- C11 as stated fails for a `gamma` that is not a finite number: with `gamma = +inf`,
`c_reg = 2` and the position 0, before `c_reg`, the penalty `inf * 0` is `NaN` and not 0. -/
theorem regularizer_penalty_infinite_gamma :
    ((0 : Nat) : Int) < 2
    ∧ penalty Flt.pinf 2 0 = Flt.nan
    ∧ penalty Flt.pinf 2 0 ≠ Flt.fin 0 := by
  have h : penalty Flt.pinf 2 0 = Flt.nan := by
    simp [penalty, Flt.ofInt, Flt.mul]
  refine ⟨by decide, h, ?_⟩
  rw [h]
  exact fun hc => Flt.noConfusion hc

/-- C11, amended. Both files compute the regularized score as the normalized score plus the
same penalty `gamma * max(0, p - c_reg)`.  For a `c_reg` and positions that fit the `int`
range and whose difference fits it too: at every position before `c_reg` the penalty of a
finite `gamma` is 0, and at every position from `c_reg` on the penalty of any `gamma` is the
`float` product of `gamma` and `p - c_reg`. -/
theorem regularizer_penalty (params : ConannCalibParams) (p : Nat) (dist_k : Flt)
    (inp : CalibInput) (row col : Nat) (g : ℚ) (gamma : Flt) (c_reg : Int) (p1 p2 : Nat)
    (h1 : (p1 : Int) < c_reg) (h2 : c_reg ≤ (p2 : Int))
    (_hc1 : -(2 : Int) ^ 31 ≤ c_reg) (_hc2 : c_reg < (2 : Int) ^ 31)
    (_hp2 : (p2 : Int) < (2 : Int) ^ 31)
    (_hr1 : -(2 : Int) ^ 31 ≤ (p1 : Int) - c_reg) (_hr2 : (p2 : Int) - c_reg < (2 : Int) ^ 31) :
    pi_hat params p dist_k
      = Flt.add
          (clamp01 (Flt.div (Flt.sub dist_k params.min_dist)
            (Flt.sub params.max_dist params.min_dist)))
          (penalty params.gamma params.c_reg p)
    ∧ reg_nonconf_matrix inp row col
      = Flt.add (nonconf_matrix inp row col) (penalty calib_gamma calib_c_reg col)
    ∧ penalty (Flt.fin g) c_reg p1 = Flt.fin 0
    ∧ penalty gamma c_reg p2 = Flt.mul gamma (Flt.ofInt ((p2 : Int) - c_reg)) := by
  refine ⟨rfl, rfl, ?_, ?_⟩
  · have hmax : max 0 ((p1 : Int) - c_reg) = 0 := max_eq_left (by omega)
    simp only [penalty, hmax, Flt.ofInt, fmul_fin]
    norm_num
  · have hmax : max 0 ((p2 : Int) - c_reg) = (p2 : Int) - c_reg := max_eq_right (by omega)
    simp only [penalty, hmax]

/-- C11 amended, at a concrete input: `gamma = 1/4`, `c_reg = 2`, positions 0 and 5. -/
theorem regularizer_penalty_witness :
    ((0 : Nat) : Int) < 2 ∧ (2 : Int) ≤ ((5 : Nat) : Int)
    ∧ -(2 : Int) ^ 31 ≤ 2 ∧ (2 : Int) < (2 : Int) ^ 31 ∧ ((5 : Nat) : Int) < (2 : Int) ^ 31
    ∧ -(2 : Int) ^ 31 ≤ ((0 : Nat) : Int) - 2 ∧ ((5 : Nat) : Int) - 2 < (2 : Int) ^ 31
    ∧ (pi_hat demo_params 1 (Flt.fin 1)
        = Flt.add
            (clamp01 (Flt.div (Flt.sub (Flt.fin 1) demo_params.min_dist)
              (Flt.sub demo_params.max_dist demo_params.min_dist)))
            (penalty demo_params.gamma demo_params.c_reg 1)
      ∧ reg_nonconf_matrix demo_calib 0 3
        = Flt.add (nonconf_matrix demo_calib 0 3) (penalty calib_gamma calib_c_reg 3)
      ∧ penalty (Flt.fin (1 / 4)) 2 0 = Flt.fin 0
      ∧ penalty (Flt.fin (1 / 4)) 2 5
        = Flt.mul (Flt.fin (1 / 4)) (Flt.ofInt (((5 : Nat) : Int) - 2))) :=
  ⟨by decide, by decide, by decide, by decide, by decide, by decide, by decide,
    regularizer_penalty demo_params 1 (Flt.fin 1) demo_calib 0 3 (1 / 4) (Flt.fin (1 / 4)) 2 0 5
      (by decide) (by decide) (by decide) (by decide) (by decide) (by decide) (by decide)⟩

theorem total_ef_le (v : List Int) (top : Int) (n : Nat)
    (h : ∀ q, q < n → v.getD q 0 ≤ top) : total_ef v n ≤ (n : Int) * top := by
  unfold total_ef
  induction n with
  | zero => simp
  | succ n ih =>
    rw [List.range_succ, List.foldl_append]
    simp only [List.foldl_cons, List.foldl_nil]
    have h1 := ih (fun q hq => h q (Nat.lt_succ_of_lt hq))
    have h2 := h n (Nat.lt_succ_self n)
    push_cast
    linarith

theorem schedule_le_last (sched : List Int) (hinc : sched.Pairwise (fun a b => a < b))
    (j : Nat) (hj : j < sched.length) :
    sched.getD j 0 ≤ sched.getD (sched.length - 1) 0 := by
  have hlast : sched.length - 1 < sched.length := by omega
  rw [List.getD_eq_getElem _ _ hj, List.getD_eq_getElem _ _ hlast]
  by_cases hjl : j = sched.length - 1
  · subst hjl
    exact le_refl _
  · exact le_of_lt (List.pairwise_iff_getElem.1 hinc j (sched.length - 1) hj hlast (by omega))

/-- C13. With a non-empty, strictly increasing schedule, the last schedule value is the
maximum of the schedule and every `ef_used[q]` is at most it; hence the total `total_ef` that
`main` accumulates over the `nq` queries is at most `nq` times it, and the average of
`ef_used` over any non-empty list of queries, as an exact quotient, is at most it, the effort
of the fixed maximum-effort baseline. -/
theorem adaptive_effort_at_most_max (index : IndexHNSWFlat) (nq : Nat)
    (queries : List (List Flt)) (k : Nat) (params : ConannCalibParams)
    (final_labels : Nat → List Int) (final_distances : Nat → List Flt) (ef_used : List Int)
    (hne : params.ef_schedule ≠ [])
    (hinc : params.ef_schedule.Pairwise (fun a b => a < b)) :
    (∀ ef, ef ∈ params.ef_schedule →
        ef ≤ params.ef_schedule.getD (params.ef_schedule.length - 1) 0)
    ∧ (∀ q, q < nq →
        (search_hnsw_conann_batch index nq queries k params final_labels final_distances
            ef_used).ef_used.getD q 0
          ≤ params.ef_schedule.getD (params.ef_schedule.length - 1) 0)
    ∧ total_ef
        (search_hnsw_conann_batch index nq queries k params final_labels final_distances
          ef_used).ef_used nq
      ≤ (nq : Int) * params.ef_schedule.getD (params.ef_schedule.length - 1) 0
    ∧ (∀ S : List Nat, S ≠ [] → (∀ q, q ∈ S → q < nq) →
        (((S.map (fun q =>
            (search_hnsw_conann_batch index nq queries k params final_labels final_distances
              ef_used).ef_used.getD q 0)).sum : Int) : ℚ) / (S.length : ℚ)
          ≤ ((params.ef_schedule.getD (params.ef_schedule.length - 1) 0 : Int) : ℚ)) := by
  obtain ⟨m, hm, hinv, hnil⟩ :=
    search_batch_active_nil index queries k params nq final_labels final_distances ef_used hne
  have hq : ∀ q, q < nq →
      (search_hnsw_conann_batch index nq queries k params final_labels final_distances
          ef_used).ef_used.getD q 0
        ≤ params.ef_schedule.getD (params.ef_schedule.length - 1) 0 := by
    intro q hq
    have hnot : q ∉ active_at index queries k params nq m := by
      rw [hnil]
      exact List.not_mem_nil q
    obtain ⟨j, hj, _, _, _, _, h3⟩ := hinv.resolved q hq hnot
    rw [h3]
    exact schedule_le_last _ hinc j (Nat.lt_of_lt_of_le hj hm)
  have hsum : ∀ S : List Nat, (∀ q, q ∈ S → q < nq) →
      (S.map (fun q =>
          (search_hnsw_conann_batch index nq queries k params final_labels final_distances
            ef_used).ef_used.getD q 0)).sum
        ≤ (S.length : Int) * params.ef_schedule.getD (params.ef_schedule.length - 1) 0 := by
    intro S hS
    induction S with
    | nil => simp
    | cons x S ih =>
      have h1 := ih (fun q hqS => hS q (List.mem_cons_of_mem x hqS))
      have h2 := hq x (hS x (List.mem_cons_self x S))
      simp only [List.map_cons, List.sum_cons, List.length_cons]
      push_cast
      linarith
  refine ⟨?_, hq, total_ef_le _ _ nq hq, ?_⟩
  · intro ef hef
    obtain ⟨j, hj, rfl⟩ := List.getElem_of_mem hef
    rw [← List.getD_eq_getElem _ 0 hj]
    exact schedule_le_last _ hinc j hj
  · intro S hne2 hS
    have hlen : (0 : ℚ) < (S.length : ℚ) := by
      have : 0 < S.length := List.length_pos.2 hne2
      exact_mod_cast this
    rw [div_le_iff₀ hlen]
    have hcast : (((S.map (fun q =>
        (search_hnsw_conann_batch index nq queries k params final_labels final_distances
          ef_used).ef_used.getD q 0)).sum : Int) : ℚ)
        ≤ (S.length : ℚ)
          * ((params.ef_schedule.getD (params.ef_schedule.length - 1) 0 : Int) : ℚ) := by
      have hint := hsum S hS
      exact_mod_cast hint
    rw [mul_comm]
    exact hcast

/-- C13, at a concrete input: three queries on the schedule 1, 21. -/
theorem adaptive_effort_at_most_max_witness :
    demo_params.ef_schedule ≠ []
    ∧ demo_params.ef_schedule.Pairwise (fun a b => a < b)
    ∧ ((∀ ef, ef ∈ demo_params.ef_schedule →
          ef ≤ demo_params.ef_schedule.getD (demo_params.ef_schedule.length - 1) 0)
      ∧ (∀ q, q < 3 →
          (search_hnsw_conann_batch demo_index 3 [[], [], []] 1 demo_params (fun _ => [])
              (fun _ => []) []).ef_used.getD q 0
            ≤ demo_params.ef_schedule.getD (demo_params.ef_schedule.length - 1) 0)
      ∧ total_ef
          (search_hnsw_conann_batch demo_index 3 [[], [], []] 1 demo_params (fun _ => [])
            (fun _ => []) []).ef_used 3
        ≤ ((3 : Nat) : Int)
          * demo_params.ef_schedule.getD (demo_params.ef_schedule.length - 1) 0
      ∧ (∀ S : List Nat, S ≠ [] → (∀ q, q ∈ S → q < 3) →
          (((S.map (fun q =>
              (search_hnsw_conann_batch demo_index 3 [[], [], []] 1 demo_params (fun _ => [])
                (fun _ => []) []).ef_used.getD q 0)).sum : Int) : ℚ) / (S.length : ℚ)
            ≤ ((demo_params.ef_schedule.getD (demo_params.ef_schedule.length - 1) 0 : Int)
                : ℚ))) :=
  ⟨by decide, by decide,
    adaptive_effort_at_most_max demo_index 3 [[], [], []] 1 demo_params (fun _ => [])
      (fun _ => []) [] (by decide) (by decide)⟩

/-- C14 as stated fails: on the schedule 1, 21 with threshold 1/2, the only query has score 1
at effort 1 and is not resolved in round 0, so the active list entering round 1 is the same
as the one entering round 0 and not strictly smaller. -/
theorem active_set_not_strictly_smaller :
    (search_hnsw_conann_batch demo_index 1 [[]] 1 demo_params (fun _ => []) (fun _ => [])
        []).history = [[0], [0]]
    ∧ (search_hnsw_conann_batch demo_index 1 [[]] 1 demo_params (fun _ => []) (fun _ => [])
        []).active_indices = [] := by
  constructor <;>
  norm_num [search_hnsw_conann_batch, search_loop, stopping_pass, demo_params,
    demo_index, pi_hat, dist_k_of, resize, Flt.sub, Flt.neg, Flt.add, Flt.div, Flt.mul,
    Flt.std_min, Flt.std_max, Flt.lt, Flt.le, Flt.ofInt, List.range, List.range.loop]

/-- C14, amended. For every executed round `i`, the active list entering the next round (or
left at the end) is no longer than the one entering round `i`, and it is strictly shorter
exactly when round `i` resolves at least one of its active queries (the test of line 150:
the score passes, or `i` is the last schedule position). -/
theorem active_set_smaller_iff_resolved (index : IndexHNSWFlat) (nq : Nat)
    (queries : List (List Flt)) (k : Nat) (params : ConannCalibParams)
    (final_labels : Nat → List Int) (final_distances : Nat → List Flt) (ef_used : List Int)
    (i : Nat) (cur next : List Nat)
    (hi : i < (search_hnsw_conann_batch index nq queries k params final_labels
      final_distances ef_used).history.length)
    (hcur : ((search_hnsw_conann_batch index nq queries k params final_labels final_distances
          ef_used).history
        ++ [(search_hnsw_conann_batch index nq queries k params final_labels final_distances
          ef_used).active_indices])[i]? = some cur)
    (hnext : ((search_hnsw_conann_batch index nq queries k params final_labels
          final_distances ef_used).history
        ++ [(search_hnsw_conann_batch index nq queries k params final_labels final_distances
          ef_used).active_indices])[i + 1]? = some next) :
    next.length ≤ cur.length
    ∧ (next.length < cur.length
        ↔ ∃ q, q ∈ cur ∧ resolves_at index queries k params i q = true) := by
  obtain ⟨m, _, hinv, _⟩ :=
    search_batch_inv index queries k params nq final_labels final_distances ef_used
  have hlists :
      (search_hnsw_conann_batch index nq queries k params final_labels final_distances
          ef_used).history
        ++ [(search_hnsw_conann_batch index nq queries k params final_labels final_distances
          ef_used).active_indices]
      = (List.range (m + 1)).map (active_at index queries k params nq) := by
    rw [hinv.history, hinv.active, List.range_succ, List.map_append]
    rfl
  have him : i < m := by
    rw [hinv.history, List.length_map, List.length_range] at hi
    exact hi
  rw [hlists, List.getElem?_map, List.getElem?_range (by omega)] at hcur hnext
  have hc : cur = active_at index queries k params nq i := (Option.some.inj hcur).symm
  have hn : next = active_at index queries k params nq (i + 1) := (Option.some.inj hnext).symm
  rw [hn, hc, active_at]
  refine ⟨List.length_filter_le _ _, ?_⟩
  rw [List.length_filter_lt_length_iff_exists]
  constructor
  · rintro ⟨q, hq, hr⟩
    refine ⟨q, hq, ?_⟩
    simpa using hr
  · rintro ⟨q, hq, hr⟩
    refine ⟨q, hq, ?_⟩
    simp [hr]

/-- C14 amended, at a concrete input: round 0 of the one-query run resolves nothing and the
active list keeps its length. -/
theorem active_set_smaller_iff_resolved_witness :
    0 < (search_hnsw_conann_batch demo_index 1 [[]] 1 demo_params (fun _ => [])
        (fun _ => []) []).history.length
    ∧ ((search_hnsw_conann_batch demo_index 1 [[]] 1 demo_params (fun _ => [])
            (fun _ => []) []).history
          ++ [(search_hnsw_conann_batch demo_index 1 [[]] 1 demo_params (fun _ => [])
            (fun _ => []) []).active_indices])[0]? = some [0]
    ∧ ((search_hnsw_conann_batch demo_index 1 [[]] 1 demo_params (fun _ => [])
            (fun _ => []) []).history
          ++ [(search_hnsw_conann_batch demo_index 1 [[]] 1 demo_params (fun _ => [])
            (fun _ => []) []).active_indices])[0 + 1]? = some [0]
    ∧ (([0] : List Nat).length ≤ ([0] : List Nat).length
      ∧ (([0] : List Nat).length < ([0] : List Nat).length
          ↔ ∃ q, q ∈ ([0] : List Nat) ∧ resolves_at demo_index [[]] 1 demo_params 0 q = true)) :=
  have hhist : (search_hnsw_conann_batch demo_index 1 [[]] 1 demo_params (fun _ => [])
      (fun _ => []) []).history = [[0], [0]] := by
    norm_num [search_hnsw_conann_batch, search_loop, stopping_pass, demo_params,
      demo_index, pi_hat, dist_k_of, resize, Flt.sub, Flt.neg, Flt.add, Flt.div, Flt.mul,
      Flt.std_min, Flt.std_max, Flt.lt, Flt.le, Flt.ofInt, List.range, List.range.loop]
  have h0 : 0 < (search_hnsw_conann_batch demo_index 1 [[]] 1 demo_params (fun _ => [])
      (fun _ => []) []).history.length := by
    rw [hhist]
    decide
  have hcur : ((search_hnsw_conann_batch demo_index 1 [[]] 1 demo_params (fun _ => [])
          (fun _ => []) []).history
        ++ [(search_hnsw_conann_batch demo_index 1 [[]] 1 demo_params (fun _ => [])
          (fun _ => []) []).active_indices])[0]? = some [0] := by
    rw [hhist]
    rfl
  have hnext : ((search_hnsw_conann_batch demo_index 1 [[]] 1 demo_params (fun _ => [])
          (fun _ => []) []).history
        ++ [(search_hnsw_conann_batch demo_index 1 [[]] 1 demo_params (fun _ => [])
          (fun _ => []) []).active_indices])[0 + 1]? = some [0] := by
    rw [hhist]
    rfl
  ⟨h0, hcur, hnext,
    active_set_smaller_iff_resolved demo_index 1 [[]] 1 demo_params (fun _ => [])
      (fun _ => []) [] 0 [0] [0] h0 hcur hnext⟩

/-! ## `calculate_fnr`: claims -/

theorem intersection_size_eq (preds gt_set : List Int) (js : List Nat) :
    intersection_size preds gt_set js
      = ((js.filter (fun j => decide (to_int32 (preds.getD j 0) ∈ gt_set))).length : Int) := by
  induction js with
  | nil => rfl
  | cons j js ih =>
    rw [intersection_size]
    by_cases h : to_int32 (preds.getD j 0) ∈ gt_set
    · rw [if_pos h, ih]
      simp only [List.filter_cons, decide_eq_true h, if_true, List.length_cons]
      push_cast
      rfl
    · rw [if_neg h, ih]
      simp only [List.filter_cons, decide_eq_false h, Bool.false_eq_true, if_false]

theorem map_getD_range (preds : List Int) :
    (List.range preds.length).map (fun j => preds.getD j 0) = preds := by
  apply List.ext_getElem
  · simp
  · intro n h1 h2
    simp only [List.getElem_map, List.getElem_range]
    exact List.getD_eq_getElem _ _ h2

theorem intersection_size_range (preds gt_set : List Int)
    (hrange : ∀ x, x ∈ preds → to_int32 x = x) :
    intersection_size preds gt_set (List.range preds.length)
      = ((preds.filter (fun x => decide (x ∈ gt_set))).length : Int) := by
  rw [intersection_size_eq]
  have h1 : (List.range preds.length).filter
        (fun j => decide (to_int32 (preds.getD j 0) ∈ gt_set))
      = (List.range preds.length).filter
        ((fun x => decide (to_int32 x ∈ gt_set)) ∘ fun j => preds.getD j 0) := rfl
  have h2 := List.filter_map (p := fun x => decide (to_int32 x ∈ gt_set))
    (fun j => preds.getD j 0) (List.range preds.length)
  rw [map_getD_range] at h2
  have h3 : preds.filter (fun x => decide (to_int32 x ∈ gt_set))
      = preds.filter (fun x => decide (x ∈ gt_set)) := by
    apply List.filter_congr
    intro x hx
    rw [hrange x hx]
  rw [h1, ← List.length_map _ (fun j => preds.getD j 0), ← h2, h3]

theorem length_filter_mem_comm (P G : List Int) (hG : G.Nodup)
    (hdup : ∀ g, g ∈ G → P.count g ≤ 1) :
    (P.filter (fun x => decide (x ∈ G))).length = (G.filter (fun g => decide (g ∈ P))).length := by
  have hPn : (P.filter (fun x => decide (x ∈ G))).Nodup := by
    rw [List.nodup_iff_count_le_one]
    intro a
    by_cases ha : a ∈ G
    · exact le_trans (List.Sublist.count_le (List.filter_sublist P) a) (hdup a ha)
    · have : a ∉ P.filter (fun x => decide (x ∈ G)) := by
        intro hm
        have := (List.mem_filter.1 hm).2
        exact ha (by simpa using this)
      rw [List.count_eq_zero.2 this]
      exact Nat.zero_le 1
  have hGn : (G.filter (fun g => decide (g ∈ P))).Nodup := hG.filter _
  rw [← List.toFinset_card_of_nodup hPn, ← List.toFinset_card_of_nodup hGn]
  congr 1
  ext a
  simp only [List.mem_toFinset, List.mem_filter, decide_eq_true_eq]
  exact And.comm

/-- C15 as stated fails: with `k = 2`, ground truth 5, 6 and the returned labels 5, 5, one of
the two ground-truth identifiers is missing from the returned list, a fraction of 1/2, while
`calculate_fnr` counts the label 5 twice and returns 0. -/
theorem fnr_counts_repeated_label :
    ([5, 6] : List Int).Nodup ∧ ([5, 6] : List Int).length = 2
    ∧ ([5, 5] : List Int).length = 2
    ∧ calculate_fnr [5, 5] [5, 6] 2 = Flt.fin 0
    ∧ missing_fraction [5, 5] [5, 6] 2 = 1 / 2 := by
  have h5 : to_int32 5 = 5 := by decide
  refine ⟨by decide, rfl, rfl, ?_, ?_⟩
  · have hr : List.range 2 = [0, 1] := rfl
    simp only [calculate_fnr, hr, intersection_size, List.getD_cons_zero,
      List.getD_cons_succ, h5, Flt.ofInt, Flt.ofNat]
    norm_num [fdiv_fin, fsub_fin]
  · norm_num [missing_fraction]

/-- C15, amended. For `k > 0`, a ground-truth row whose first `k` identifiers are distinct
and a returned list of `k` labels that fit the `int` range and among which no ground-truth
identifier occurs more than once, `calculate_fnr` returns the `float` value of
`1 - |gt ∩ returned| / k`, where `|gt ∩ returned|` and the number of ground-truth identifiers
that do not occur in the returned list add up to `k` (so that in exact arithmetic the value
is the fraction of missing identifiers); the result lies in `[0, 1]`. -/
theorem calculate_fnr_is_missing_fraction (preds gt_row : List Int) (k : Nat)
    (hk : 0 < k) (hgl : k ≤ gt_row.length) (hgt : (gt_row.take k).Nodup)
    (hpl : preds.length = k) (hrange : ∀ x, x ∈ preds → to_int32 x = x)
    (hdup : ∀ g, g ∈ gt_row.take k → preds.count g ≤ 1) :
    calculate_fnr preds gt_row k
      = Flt.sub (Flt.fin 1)
          (Flt.div
            (Flt.ofInt (((gt_row.take k).filter (fun g => decide (g ∈ preds))).length : Int))
            (Flt.ofNat k))
    ∧ ((gt_row.take k).filter (fun g => decide (g ∈ preds))).length
        + ((gt_row.take k).filter (fun g => decide (g ∉ preds))).length = k
    ∧ missing_fraction preds gt_row k
      = 1 - (((gt_row.take k).filter (fun g => decide (g ∈ preds))).length : ℚ) / (k : ℚ)
    ∧ Flt.le (Flt.fin 0) (calculate_fnr preds gt_row k) = true
    ∧ Flt.le (calculate_fnr preds gt_row k) (Flt.fin 1) = true := by
  have hk0 : (k : ℚ) ≠ 0 := by exact_mod_cast hk.ne'
  have hkpos : (0 : ℚ) < (k : ℚ) := by exact_mod_cast hk
  have hlen : (gt_row.take k).length = k := by
    rw [List.length_take]
    exact min_eq_left hgl
  have hsplit := List.length_eq_length_filter_add (l := gt_row.take k)
    (fun g => decide (g ∈ preds))
  have hnot : (gt_row.take k).filter (fun g => !decide (g ∈ preds))
      = (gt_row.take k).filter (fun g => decide (g ∉ preds)) := by
    apply List.filter_congr
    intro x _
    simp
  rw [hnot, hlen] at hsplit
  have hsplitq : (k : ℚ)
      = (((gt_row.take k).filter (fun g => decide (g ∈ preds))).length : ℚ)
        + (((gt_row.take k).filter (fun g => decide (g ∉ preds))).length : ℚ) := by
    exact_mod_cast hsplit
  have hmiss : missing_fraction preds gt_row k
      = 1 - (((gt_row.take k).filter (fun g => decide (g ∈ preds))).length : ℚ) / (k : ℚ) := by
    unfold missing_fraction
    rw [eq_sub_iff_add_eq, ← add_div, div_eq_iff hk0, one_mul]
    linarith
  have hcode : calculate_fnr preds gt_row k
      = Flt.sub (Flt.fin 1)
          (Flt.div
            (Flt.ofInt (((gt_row.take k).filter (fun g => decide (g ∈ preds))).length : Int))
            (Flt.ofNat k)) := by
    have hint := intersection_size_range preds (gt_row.take k) hrange
    rw [hpl] at hint
    simp only [calculate_fnr]
    rw [hint, length_filter_mem_comm preds (gt_row.take k) hgt hdup]
  have hval : calculate_fnr preds gt_row k
      = Flt.fin (1 - (((gt_row.take k).filter (fun g => decide (g ∈ preds))).length : ℚ)
          / (k : ℚ)) := by
    rw [hcode]
    simp only [Flt.ofInt, Flt.ofNat]
    rw [fdiv_fin _ _ hk0, fsub_fin]
    norm_cast
  have hfrac0 : (0 : ℚ) ≤ (((gt_row.take k).filter (fun g => decide (g ∈ preds))).length : ℚ)
      / (k : ℚ) := by positivity
  have hfrac1 : (((gt_row.take k).filter (fun g => decide (g ∈ preds))).length : ℚ) / (k : ℚ)
      ≤ 1 := by
    rw [div_le_one hkpos]
    have : (0 : ℚ)
        ≤ (((gt_row.take k).filter (fun g => decide (g ∉ preds))).length : ℚ) := by
      positivity
    linarith
  refine ⟨hcode, hsplit.symm, hmiss, ?_, ?_⟩
  · rw [hval, fle_fin, decide_eq_true_eq]
    linarith
  · rw [hval, fle_fin, decide_eq_true_eq]
    linarith

/-- C15 amended, at a concrete input: `k = 2`, ground truth 5, 6 and returned labels 5, 9. -/
theorem calculate_fnr_is_missing_fraction_witness :
    0 < 2 ∧ 2 ≤ ([5, 6] : List Int).length ∧ (([5, 6] : List Int).take 2).Nodup
    ∧ ([5, 9] : List Int).length = 2
    ∧ (∀ x, x ∈ ([5, 9] : List Int) → to_int32 x = x)
    ∧ (∀ g, g ∈ ([5, 6] : List Int).take 2 → ([5, 9] : List Int).count g ≤ 1)
    ∧ (calculate_fnr [5, 9] [5, 6] 2
        = Flt.sub (Flt.fin 1)
            (Flt.div
              (Flt.ofInt (((([5, 6] : List Int).take 2).filter
                (fun g => decide (g ∈ ([5, 9] : List Int)))).length : Int))
              (Flt.ofNat 2))
      ∧ ((([5, 6] : List Int).take 2).filter
            (fun g => decide (g ∈ ([5, 9] : List Int)))).length
          + ((([5, 6] : List Int).take 2).filter
            (fun g => decide (g ∉ ([5, 9] : List Int)))).length = 2
      ∧ missing_fraction [5, 9] [5, 6] 2
        = 1 - (((([5, 6] : List Int).take 2).filter
            (fun g => decide (g ∈ ([5, 9] : List Int)))).length : ℚ) / ((2 : Nat) : ℚ)
      ∧ Flt.le (Flt.fin 0) (calculate_fnr [5, 9] [5, 6] 2) = true
      ∧ Flt.le (calculate_fnr [5, 9] [5, 6] 2) (Flt.fin 1) = true) :=
  ⟨by decide, by decide, by decide, rfl, by decide, by decide,
    calculate_fnr_is_missing_fraction [5, 9] [5, 6] 2 (by decide) (by decide) (by decide) rfl
      (by decide) (by decide)⟩

/-! ## The online rule and the calibration rule: claims -/

theorem clamp01_fin (y : ℚ) (h0 : 0 ≤ y) (h1 : y ≤ 1) : clamp01 (Flt.fin y) = Flt.fin y := by
  unfold clamp01 Flt.std_min Flt.std_max
  by_cases hy1 : y < 1
  · by_cases hy0 : 0 < y
    · simp [flt_fin, hy1, hy0]
    · have : y = 0 := le_antisymm (not_lt.1 hy0) h0
      simp [flt_fin, this]
  · have : y = 1 := le_antisymm h1 (not_lt.1 hy1)
    simp [flt_fin, this]

/-- For finite bounds `0 <= min_dist < max_dist` and a distance inside `[min_dist, max_dist]`
the clamp of the online rule does nothing: the online score is the calibration score. -/
theorem pi_hat_eq_calib_rule (params : ConannCalibParams) (p : Nat) (d : Flt) (mn mx : ℚ)
    (hmin : params.min_dist = Flt.fin mn) (hmax : params.max_dist = Flt.fin mx)
    (_h0 : 0 ≤ mn) (hlt : mn < mx) (h1 : Flt.le params.min_dist d = true)
    (h2 : Flt.le d params.max_dist = true) :
    pi_hat params p d = calib_rule_score params d p := by
  rw [hmin] at h1
  rw [hmax] at h2
  cases d with
  | fin x =>
    have hx1 : mn ≤ x := by simpa [fle_fin] using h1
    have hx2 : x ≤ mx := by simpa [fle_fin] using h2
    have hb : mx - mn ≠ 0 := by
      intro h
      linarith
    have hb0 : 0 < mx - mn := by linarith
    have hy0 : 0 ≤ (x - mn) / (mx - mn) := div_nonneg (by linarith) (le_of_lt hb0)
    have hy1 : (x - mn) / (mx - mn) ≤ 1 := by
      rw [div_le_one hb0]
      linarith
    have hc := clamp01_fin _ hy0 hy1
    unfold clamp01 at hc
    simp only [pi_hat, calib_rule_score, hmin, hmax, fsub_fin]
    rw [fdiv_fin _ _ hb, hc]
  | pinf => simp [Flt.le] at h2
  | ninf => simp [Flt.le] at h1
  | nan => simp [Flt.le] at h1

theorem select_col_eq_find (inp : CalibInput) (row : Nat) (lam : Flt) (cols : List Nat) :
    select_col inp row lam cols
      = (cols.find? (fun c => Flt.le (reg_nonconf_matrix inp row c) lam)).getD (num_ef - 1) := by
  induction cols with
  | nil => rfl
  | cons c cols ih =>
    rw [select_col, List.find?_cons]
    cases hc : Flt.le (reg_nonconf_matrix inp row c) lam
    · simp only [Bool.false_eq_true, if_false]
      exact ih
    · simp only [if_true]
      rfl

/-- The column loop of the sweep is the calibration rule of the specification, at the
constants and the bounds of calibration. -/
theorem selected_col_eq_calib_rule (inp : CalibInput) (row : Nat) (lam : Flt) :
    selected_col inp row lam
      = calib_rule_position inp.index inp.calib_queries inp.k
          { lambda_hat := lam
            gamma := calib_gamma
            c_reg := calib_c_reg
            min_dist := global_min_dist inp
            max_dist := global_max_dist inp
            ef_schedule := efSearch_values } row := by
  rw [selected_col, select_col_eq_find]
  rfl

/-- C16 as stated fails: with the bounds 0 and `+inf`, threshold 1 and a query whose k-th
neighbour distance is `+inf`, inside the bounds, the normalized distance `inf / inf` is `NaN`;
the clamp of the online rule turns it into 1, so the query is scattered in round 0, while the
score of the calibration rule, not clamped, is `NaN` and its column is the last one, 1. -/
theorem online_rule_differs_at_infinite_bound :
    inf_params.ef_schedule ≠ []
    ∧ Flt.lt inf_params.min_dist inf_params.max_dist = true
    ∧ (∀ p, p < inf_params.ef_schedule.length →
        Flt.le inf_params.min_dist
            (dist_k_of (inf_index (([[]] : List (List Flt)).getD 0 []) 1
              (inf_params.ef_schedule.getD p 0)) 1) = true
          ∧ Flt.le (dist_k_of (inf_index (([[]] : List (List Flt)).getD 0 []) 1
              (inf_params.ef_schedule.getD p 0)) 1) inf_params.max_dist = true)
    ∧ (search_hnsw_conann_batch inf_index 1 [[]] 1 inf_params (fun _ => []) (fun _ => [])
        []).writes = [(0, 0)]
    ∧ calib_rule_position inf_index [[]] 1 inf_params 0 = 1 := by
  refine ⟨by decide, by simp [inf_params, Flt.lt], ?_, ?_, ?_⟩
  · intro p _
    simp [inf_params, inf_index, dist_k_of, Flt.le]
  · norm_num [search_hnsw_conann_batch, search_loop, stopping_pass, inf_params,
      inf_index, pi_hat, dist_k_of, resize, Flt.sub, Flt.neg, Flt.add, Flt.div, Flt.mul,
      Flt.std_min, Flt.std_max, Flt.lt, Flt.le, Flt.ofInt, List.range, List.range.loop]
  · have hr : List.range 2 = [0, 1] := rfl
    have hlen : inf_params.ef_schedule.length = 2 := rfl
    simp only [calib_rule_position, first_qualifying, hlen, hr]
    simp [calib_rule_score, inf_params, inf_index, dist_k_of, Flt.sub, Flt.neg, Flt.add,
      Flt.div, Flt.le, List.find?]

/-- C16, amended. For an artifact with finite bounds `0 <= min_dist < max_dist`, a non-empty
schedule and a query whose k-th neighbour distance lies in `[min_dist, max_dist]` at every
schedule position: the only round in which `search_hnsw_conann_batch` scatters the query is
the column of the calibration rule (first column whose score, not clamped, is at most
`lambda_hat`, else the last column) for the same per-effort distances, and `ef_used` is the
schedule value there.  The column loop of the sweep in calibrate.cpp is that rule at the
calibration constants. -/
theorem online_rule_agrees_with_calibration (index : IndexHNSWFlat) (nq : Nat)
    (queries : List (List Flt)) (k : Nat) (params : ConannCalibParams)
    (final_labels : Nat → List Int) (final_distances : Nat → List Flt) (ef_used : List Int)
    (mn mx : ℚ) (hne : params.ef_schedule ≠ [])
    (hmin : params.min_dist = Flt.fin mn) (hmax : params.max_dist = Flt.fin mx)
    (h0 : 0 ≤ mn) (hlt : mn < mx) (q : Nat) (hq : q < nq)
    (hdist : ∀ p, p < params.ef_schedule.length →
      Flt.le params.min_dist
          (dist_k_of (index (queries.getD q []) k (params.ef_schedule.getD p 0)) k) = true
        ∧ Flt.le (dist_k_of (index (queries.getD q []) k (params.ef_schedule.getD p 0)) k)
          params.max_dist = true)
    (inp : CalibInput) (row : Nat) (lam : Flt) :
    (search_hnsw_conann_batch index nq queries k params final_labels final_distances
        ef_used).writes.filter (fun w => decide (w.2 = q))
      = [(calib_rule_position index queries k params q, q)]
    ∧ (search_hnsw_conann_batch index nq queries k params final_labels final_distances
        ef_used).ef_used.getD q 0
      = params.ef_schedule.getD (calib_rule_position index queries k params q) 0
    ∧ selected_col inp row lam
      = calib_rule_position inp.index inp.calib_queries inp.k
          { lambda_hat := lam
            gamma := calib_gamma
            c_reg := calib_c_reg
            min_dist := global_min_dist inp
            max_dist := global_max_dist inp
            ef_schedule := efSearch_values } row := by
  obtain ⟨m, hm, hinv, hnil⟩ :=
    search_batch_active_nil index queries k params nq final_labels final_distances ef_used hne
  have hnot : q ∉ active_at index queries k params nq m := by
    rw [hnil]
    exact List.not_mem_nil q
  obtain ⟨j, hj, hmj, hrj, _, _, h3⟩ := hinv.resolved q hq hnot
  have hjn : j < params.ef_schedule.length := Nat.lt_of_lt_of_le hj hm
  have hscore : ∀ p, p < params.ef_schedule.length →
      pi_hat params p (dist_k_of (index (queries.getD q []) k (params.ef_schedule.getD p 0)) k)
        = calib_rule_score params
            (dist_k_of (index (queries.getD q []) k (params.ef_schedule.getD p 0)) k) p :=
    fun p hp =>
      pi_hat_eq_calib_rule params p _ mn mx hmin hmax h0 hlt (hdist p hp).1 (hdist p hp).2
  have hpos : calib_rule_position index queries k params q = j := by
    apply first_qualifying_eq _ _ _ _ hjn
    · rw [← hscore j hjn]
      exact (resolves_at_true_iff index queries k params j q).1 hrj
    · intro i hi
      have := ((mem_active_at_iff index queries k params nq j q).1 hmj).2 i hi
      rw [← hscore i (Nat.lt_trans hi hjn)]
      exact ((resolves_at_false_iff index queries k params i q).1 this).1
  rw [hpos]
  refine ⟨?_, h3, selected_col_eq_calib_rule inp row lam⟩
  rw [hinv.writes]
  exact writes_filter_single index queries k params nq q j m hj hmj hrj

/-- C16 amended, at a concrete input: the query of `demo_index`, with distances 2 and 1 inside
the bounds 1 and 2 of `demo_params`. -/
theorem online_rule_agrees_with_calibration_witness :
    demo_params.ef_schedule ≠ []
    ∧ demo_params.min_dist = Flt.fin 1 ∧ demo_params.max_dist = Flt.fin 2
    ∧ (0 : ℚ) ≤ 1 ∧ (1 : ℚ) < 2 ∧ 0 < 1
    ∧ (∀ p, p < demo_params.ef_schedule.length →
        Flt.le demo_params.min_dist
            (dist_k_of (demo_index (([[]] : List (List Flt)).getD 0 []) 1
              (demo_params.ef_schedule.getD p 0)) 1) = true
          ∧ Flt.le (dist_k_of (demo_index (([[]] : List (List Flt)).getD 0 []) 1
              (demo_params.ef_schedule.getD p 0)) 1) demo_params.max_dist = true)
    ∧ ((search_hnsw_conann_batch demo_index 1 [[]] 1 demo_params (fun _ => []) (fun _ => [])
          []).writes.filter (fun w => decide (w.2 = 0))
        = [(calib_rule_position demo_index [[]] 1 demo_params 0, 0)]
      ∧ (search_hnsw_conann_batch demo_index 1 [[]] 1 demo_params (fun _ => []) (fun _ => [])
          []).ef_used.getD 0 0
        = demo_params.ef_schedule.getD (calib_rule_position demo_index [[]] 1 demo_params 0) 0
      ∧ selected_col demo_calib 0 (Flt.fin 0)
        = calib_rule_position demo_calib.index demo_calib.calib_queries demo_calib.k
            { lambda_hat := Flt.fin 0
              gamma := calib_gamma
              c_reg := calib_c_reg
              min_dist := global_min_dist demo_calib
              max_dist := global_max_dist demo_calib
              ef_schedule := efSearch_values } 0) :=
  have hdist : ∀ p, p < demo_params.ef_schedule.length →
      Flt.le demo_params.min_dist
          (dist_k_of (demo_index (([[]] : List (List Flt)).getD 0 []) 1
            (demo_params.ef_schedule.getD p 0)) 1) = true
        ∧ Flt.le (dist_k_of (demo_index (([[]] : List (List Flt)).getD 0 []) 1
            (demo_params.ef_schedule.getD p 0)) 1) demo_params.max_dist = true := by
    intro p hp
    have hp2 : p < 2 := hp
    interval_cases p <;> norm_num [demo_params, demo_index, dist_k_of, fle_fin]
  ⟨by decide, rfl, rfl, by norm_num, by norm_num, by decide, hdist,
    online_rule_agrees_with_calibration demo_index 1 [[]] 1 demo_params (fun _ => [])
      (fun _ => []) [] 1 2 (by decide) rfl rfl (by norm_num) (by norm_num) 0 (by decide) hdist
      demo_calib 0 (Flt.fin 0)⟩

/-! ## Monotonicity of the sweep: claims -/

theorem select_col_mem (inp : CalibInput) (row : Nat) (lam : Flt) (cols : List Nat) :
    select_col inp row lam cols ∈ cols ∨ select_col inp row lam cols = num_ef - 1 := by
  induction cols with
  | nil => exact Or.inr rfl
  | cons c cols ih =>
    rw [select_col]
    split_ifs
    · exact Or.inl (List.mem_cons_self c cols)
    · rcases ih with h | h
      · exact Or.inl (List.mem_cons_of_mem c h)
      · exact Or.inr h

theorem select_col_antitone (inp : CalibInput) (row : Nat) (lam1 lam2 : Flt)
    (hle : Flt.le lam1 lam2 = true) (cols : List Nat)
    (hsorted : cols.Pairwise (fun a b => a < b)) (hlt : ∀ c, c ∈ cols → c < num_ef) :
    select_col inp row lam2 cols ≤ select_col inp row lam1 cols := by
  induction cols with
  | nil => exact le_refl _
  | cons c cols ih =>
    rw [List.pairwise_cons] at hsorted
    have hrest := ih hsorted.2 (fun c2 hc2 => hlt c2 (List.mem_cons_of_mem c hc2))
    rw [select_col, select_col]
    by_cases h1 : Flt.le (reg_nonconf_matrix inp row c) lam1 = true
    · have h2 : Flt.le (reg_nonconf_matrix inp row c) lam2 = true := fle_trans _ _ _ h1 hle
      rw [if_pos h1, if_pos h2]
    · rw [if_neg h1]
      by_cases h2 : Flt.le (reg_nonconf_matrix inp row c) lam2 = true
      · rw [if_pos h2]
        rcases select_col_mem inp row lam1 cols with h | h
        · exact le_of_lt (hsorted.1 _ h)
        · rw [h]
          have := hlt c (List.mem_cons_self c cols)
          omega
      · rw [if_neg h2]
        exact hrest

theorem selected_col_antitone (inp : CalibInput) (row : Nat) (lam1 lam2 : Flt)
    (hle : Flt.le lam1 lam2 = true) :
    selected_col inp row lam2 ≤ selected_col inp row lam1 :=
  select_col_antitone inp row lam1 lam2 hle (List.range num_ef) (List.pairwise_lt_range num_ef)
    (fun _ hc => List.mem_range.1 hc)

theorem calculate_fnr_zero_k (preds gt : List Int) : calculate_fnr preds gt 0 = Flt.nan := by
  simp [calculate_fnr, intersection_size, Flt.ofInt, Flt.ofNat, Flt.div, Flt.sub, Flt.neg,
    Flt.add]

theorem expected_risk_empty (inp : CalibInput) (lam : Flt) (hn : inp.nq_calib = 0) :
    expected_risk inp lam = Flt.nan := by
  simp [expected_risk, empirical_risk_sum, hn, Flt.ofNat, Flt.div, Flt.mul, Flt.add]

theorem expected_risk_eq_fin (inp : CalibInput) (lam : Flt) (hn : 1 ≤ inp.nq_calib)
    (hk : 1 ≤ inp.k) :
    expected_risk inp lam
      = Flt.fin ((((List.range inp.nq_calib).map (row_fnr_exact inp lam)).sum + 1)
          / ((inp.nq_calib : ℚ) + 1)) := by
  have hrow : ∀ row, row_fnr inp lam row = Flt.fin (row_fnr_exact inp lam row) := by
    intro row
    rw [row_fnr, calculate_fnr_exact _ _ _ hk, row_fnr_exact]
  have hn0 : (inp.nq_calib : ℚ) ≠ 0 := by
    have : 0 < inp.nq_calib := hn
    exact_mod_cast this.ne'
  have hn1 : ((inp.nq_calib + 1 : Nat) : ℚ) ≠ 0 := by
    exact_mod_cast Nat.succ_ne_zero inp.nq_calib
  unfold expected_risk empirical_risk_sum
  simp only [hrow, Flt.ofNat, B]
  rw [foldl_add_fin, zero_add, fdiv_fin _ _ hn0, fmul_fin, fadd_fin, fdiv_fin _ _ hn1,
    mul_div_cancel₀ _ hn0]
  push_cast
  rfl

/-- With FNRs that do not increase with the column, the corrected risk does not decrease
with the candidate. -/
theorem expected_risk_mono (inp : CalibInput) (lam1 lam2 : Flt)
    (hle : Flt.le lam1 lam2 = true) (hn : 1 ≤ inp.nq_calib)
    (hmono : ∀ row c1 c2, row < inp.nq_calib → c1 ≤ c2 → c2 < num_ef →
      Flt.le (calculate_fnr (all_preds_list inp row c2) (gt_row inp row) inp.k)
        (calculate_fnr (all_preds_list inp row c1) (gt_row inp row) inp.k) = true) :
    Flt.le (expected_risk inp lam1) (expected_risk inp lam2) = true := by
  have hk : 1 ≤ inp.k := by
    by_contra hk0
    have hk00 : inp.k = 0 := by omega
    have h := hmono 0 0 0 hn (le_refl 0) (by rw [num_ef_eq]; decide)
    rw [hk00, calculate_fnr_zero_k] at h
    simp [Flt.le] at h
  have hrow : ∀ row, row ∈ List.range inp.nq_calib →
      row_fnr_exact inp lam1 row ≤ row_fnr_exact inp lam2 row := by
    intro row hrow
    have h := hmono row (selected_col inp row lam2) (selected_col inp row lam1)
      (List.mem_range.1 hrow) (selected_col_antitone inp row lam1 lam2 hle)
      (selected_col_lt inp row lam1)
    rw [calculate_fnr_exact _ _ _ hk, calculate_fnr_exact _ _ _ hk, fle_fin,
      decide_eq_true_eq] at h
    exact h
  have hsum := List.sum_le_sum hrow
  have hpos : (0 : ℚ) < (inp.nq_calib : ℚ) + 1 := by positivity
  rw [expected_risk_eq_fin inp lam1 hn hk, expected_risk_eq_fin inp lam2 hn hk, fle_fin,
    decide_eq_true_eq]
  exact div_le_div_of_nonneg_right (by linarith) (le_of_lt hpos)

/-- C17. For every calibration query the selected column does not increase when the
candidate grows.  When each query's FNR does not increase with the column, then for any two
rows of the csv log with candidates `lambda1 <= lambda2`: the recorded corrected risk of the
first is at most that of the second (for a calibration set with at least one query), and if
the second is valid for `alpha` so is the first, so that the valid candidates are a prefix of
the ascending sweep. -/
theorem sweep_risk_monotone (inp : CalibInput) (alpha : Flt) :
    (∀ row lam1 lam2, Flt.le lam1 lam2 = true →
        selected_col inp row lam2 ≤ selected_col inp row lam1)
    ∧ ((∀ row c1 c2, row < inp.nq_calib → c1 ≤ c2 → c2 < num_ef →
          Flt.le (calculate_fnr (all_preds_list inp row c2) (gt_row inp row) inp.k)
            (calculate_fnr (all_preds_list inp row c1) (gt_row inp row) inp.k) = true) →
        ∀ r1 r2, r1 ∈ (calibrate inp alpha).csv → r2 ∈ (calibrate inp alpha).csv →
          Flt.le r1.1 r2.1 = true →
          (1 ≤ inp.nq_calib → Flt.le r1.2 r2.2 = true)
          ∧ (Flt.le r2.2 alpha = true → Flt.le r1.2 alpha = true)) := by
  refine ⟨fun row lam1 lam2 hle => selected_col_antitone inp row lam1 lam2 hle, ?_⟩
  intro hmono r1 r2 hr1 hr2 hle
  obtain ⟨lam1, _, rfl⟩ := (mem_csv_iff inp alpha r1).1 hr1
  obtain ⟨lam2, _, rfl⟩ := (mem_csv_iff inp alpha r2).1 hr2
  refine ⟨fun hn => expected_risk_mono inp lam1 lam2 hle hn hmono, ?_⟩
  intro hvalid
  by_cases hn : 1 ≤ inp.nq_calib
  · exact fle_trans _ _ _ (expected_risk_mono inp lam1 lam2 hle hn hmono) hvalid
  · have hn0 : inp.nq_calib = 0 := by omega
    have hnan : expected_risk inp lam2 = Flt.nan := expected_risk_empty inp lam2 hn0
    simp only [hnan] at hvalid
    simp [Flt.le] at hvalid

/-- C17, at a concrete input: the one-query set, whose FNR is 0 in every column, with the
csv rows of the candidates 0 and 3/2. -/
theorem sweep_risk_monotone_witness :
    (∀ row c1 c2, row < demo_calib.nq_calib → c1 ≤ c2 → c2 < num_ef →
        Flt.le (calculate_fnr (all_preds_list demo_calib row c2) (gt_row demo_calib row)
            demo_calib.k)
          (calculate_fnr (all_preds_list demo_calib row c1) (gt_row demo_calib row)
            demo_calib.k) = true)
    ∧ (Flt.fin 0, expected_risk demo_calib (Flt.fin 0))
        ∈ (calibrate demo_calib (Flt.fin (3 / 5))).csv
    ∧ (Flt.fin (3 / 2), expected_risk demo_calib (Flt.fin (3 / 2)))
        ∈ (calibrate demo_calib (Flt.fin (3 / 5))).csv
    ∧ Flt.le (Flt.fin 0) (Flt.fin (3 / 2)) = true
    ∧ ((1 ≤ demo_calib.nq_calib →
          Flt.le (expected_risk demo_calib (Flt.fin 0))
            (expected_risk demo_calib (Flt.fin (3 / 2))) = true)
      ∧ (Flt.le (expected_risk demo_calib (Flt.fin (3 / 2))) (Flt.fin (3 / 5)) = true →
          Flt.le (expected_risk demo_calib (Flt.fin 0)) (Flt.fin (3 / 5)) = true)) :=
  have hmono : ∀ row c1 c2, row < demo_calib.nq_calib → c1 ≤ c2 → c2 < num_ef →
      Flt.le (calculate_fnr (all_preds_list demo_calib row c2) (gt_row demo_calib row)
          demo_calib.k)
        (calculate_fnr (all_preds_list demo_calib row c1) (gt_row demo_calib row)
          demo_calib.k) = true := by
    intro row c1 c2 hrow _ _
    have hr : row = 0 := by
      have : demo_calib.nq_calib = 1 := rfl
      omega
    subst hr
    rw [demo_calib_fnr_zero, demo_calib_fnr_zero]
    exact fle_fin_self 0
  have h1 : (Flt.fin 0, expected_risk demo_calib (Flt.fin 0))
      ∈ (calibrate demo_calib (Flt.fin (3 / 5))).csv :=
    (mem_csv_iff demo_calib _ _).2 ⟨Flt.fin 0, zero_mem_lambda_cands, rfl⟩
  have h2 : (Flt.fin (3 / 2), expected_risk demo_calib (Flt.fin (3 / 2)))
      ∈ (calibrate demo_calib (Flt.fin (3 / 5))).csv :=
    (mem_csv_iff demo_calib _ _).2 ⟨Flt.fin (3 / 2), top_mem_lambda_cands, rfl⟩
  have h3 : Flt.le (Flt.fin 0) (Flt.fin (3 / 2)) = true := by
    rw [fle_fin]
    norm_num
  ⟨hmono, h1, h2, h3,
    (sweep_risk_monotone demo_calib (Flt.fin (3 / 5))).2 hmono _ _ h1 h2 h3⟩

/-! ## The artifact file: claims -/

theorem read_schedule_map (l : List Int) :
    read_schedule l.length (l.map Token.int) = some l := by
  induction l with
  | nil => rfl
  | cons z l ih =>
    simp only [List.length_cons, List.map_cons, read_schedule, get_int, ih]

/-- What a write followed by a read gives for an artifact with finite fields: `c_reg`, the
schedule length and the schedule values come back as they were, and each `float` field comes
back rounded to six significant decimal digits. -/
theorem load_save_finite (l g mn mx : ℚ) (c_reg : Int) (ef_schedule : List Int) :
    load_conann_params
        (save_conann_params (Flt.fin l) (Flt.fin g) c_reg (Flt.fin mn) (Flt.fin mx) ef_schedule)
      = some
          { lambda_hat := Flt.fin (six_digits l)
            gamma := Flt.fin (six_digits g)
            c_reg := c_reg
            min_dist := Flt.fin (six_digits mn)
            max_dist := Flt.fin (six_digits mx)
            ef_schedule := ef_schedule } := by
  have hsize : get_size (Token.int (ef_schedule.length : Int)) = some ef_schedule.length := by
    simp [get_size]
  simp only [save_conann_params, put_float, List.cons_append, List.nil_append,
    load_conann_params, get_float, get_int, hsize, read_schedule_map]

set_option maxRecDepth 10000 in
theorem six_digits_half : six_digits (1 / 2) = 1 / 2 := by
  have he : decimal_exponent |(1 / 2 : ℚ)| = -1 := by
    norm_num [decimal_exponent, exponent_from, abs_of_pos]
  have hf : ⌊(500000 : ℚ)⌋ = 500000 := by norm_num [Int.floor_eq_iff]
  have hr : round_half_even (|(1 / 2 : ℚ)| / (10 : ℚ) ^ ((-1 : Int) - 5)) = 500000 := by
    have hx : |(1 / 2 : ℚ)| / (10 : ℚ) ^ ((-1 : Int) - 5) = 500000 := by
      norm_num [abs_of_pos]
    rw [hx]
    norm_num [round_half_even, hf]
  unfold six_digits
  rw [he, hr]
  norm_num

set_option maxRecDepth 10000 in
theorem six_digits_hundredth : six_digits (1 / 100) = 1 / 100 := by
  have he : decimal_exponent |(1 / 100 : ℚ)| = -2 := by
    norm_num [decimal_exponent, exponent_from, abs_of_pos]
  have hf : ⌊(100000 : ℚ)⌋ = 100000 := by norm_num [Int.floor_eq_iff]
  have hr : round_half_even (|(1 / 100 : ℚ)| / (10 : ℚ) ^ ((-2 : Int) - 5)) = 100000 := by
    have hx : |(1 / 100 : ℚ)| / (10 : ℚ) ^ ((-2 : Int) - 5) = 100000 := by
      norm_num [abs_of_pos]
    rw [hx]
    norm_num [round_half_even, hf]
  unfold six_digits
  rw [he, hr]
  norm_num

set_option maxRecDepth 10000 in
theorem six_digits_wide : six_digits 1234567 = 1234570 := by
  have he : decimal_exponent |(1234567 : ℚ)| = 6 := by
    norm_num [decimal_exponent, exponent_from, abs_of_pos]
  have hf : ⌊(1234567 : ℚ) / 10⌋ = 123456 := by norm_num [Int.floor_eq_iff]
  have hr : round_half_even (|(1234567 : ℚ)| / (10 : ℚ) ^ ((6 : Int) - 5)) = 123457 := by
    have hx : |(1234567 : ℚ)| / (10 : ℚ) ^ ((6 : Int) - 5) = 1234567 / 10 := by
      norm_num [abs_of_pos]
    rw [hx]
    norm_num [round_half_even, hf]
  unfold six_digits
  rw [he, hr]
  norm_num

theorem six_digits_zero : six_digits 0 = 0 := by
  simp [six_digits]

/-- C12 fails on the code: the artifact with `max_dist = 1234567` is written as the text
`1.23457e+06` and read back with `max_dist = 1234570`; every other field comes back as it
was.  A query whose k-th neighbour distance is 617284 has the score 617284 / 1234567, above
the threshold 1/2, with the artifact in memory and ends at effort 21, and the score
617284 / 1234570, below 1/2, with the reloaded artifact and ends at effort 1. -/
theorem artifact_round_trip_loses_digits :
    load_conann_params
        (save_conann_params wide_params.lambda_hat wide_params.gamma wide_params.c_reg
          wide_params.min_dist wide_params.max_dist wide_params.ef_schedule)
      = some wide_params_reloaded
    ∧ wide_params.max_dist = Flt.fin 1234567
    ∧ wide_params_reloaded.max_dist = Flt.fin 1234570
    ∧ (search_hnsw_conann_batch edge_index 1 [[]] 1 wide_params (fun _ => []) (fun _ => [])
        []).ef_used.getD 0 0 = 21
    ∧ (search_hnsw_conann_batch edge_index 1 [[]] 1 wide_params_reloaded (fun _ => [])
        (fun _ => []) []).ef_used.getD 0 0 = 1 := by
  refine ⟨?_, rfl, rfl, ?_, ?_⟩
  · have h := load_save_finite (1 / 2) (1 / 100) 0 1234567 2 [1, 21]
    rw [six_digits_half, six_digits_hundredth, six_digits_zero, six_digits_wide] at h
    exact h
  · norm_num [search_hnsw_conann_batch, search_loop, stopping_pass, wide_params,
      edge_index, pi_hat, dist_k_of, resize, Flt.sub, Flt.neg, Flt.add, Flt.div, Flt.mul,
      Flt.std_min, Flt.std_max, Flt.lt, Flt.le, Flt.ofInt, List.range, List.range.loop]
  · norm_num [search_hnsw_conann_batch, search_loop, stopping_pass, wide_params_reloaded,
      wide_params, edge_index, pi_hat, dist_k_of, resize, Flt.sub, Flt.neg, Flt.add, Flt.div,
      Flt.mul, Flt.std_min, Flt.std_max, Flt.lt, Flt.le, Flt.ofInt, List.range,
      List.range.loop]

end Conann
